import Mathlib

/-!
# onfs: name/size derivation and manifest rendering

A shallow embedding of `cmd/root.go` of the `onfs` command-line tool.

* `float64` values are IEEE-754 binary64 bit patterns; the arithmetic the
  root command performs on the requested size (`s + 0.1*s`) and the
  `fmt.Sprintf("%.2f", _)` conversion are modelled exactly, on integers.
  Go may evaluate `s + 0.1*s` with one rounding (fused) or two; both
  evaluations are modelled and every result holds for either.
* Go strings are Lean strings.
* The `openebsNFS` record, the `default*` constants and the `Run` closure of
  `RootCmd` are translated field by field.
* `generateTemplate` uses `html/template`: the template is parsed into text
  and field actions, and executing it writes each field value through the
  HTML escaper of the text context.
-/

namespace Onfs

set_option maxRecDepth 100000

/-! ## IEEE-754 binary64 -/

/-- A `float64`: the sign bit and the remaining 63 bits (biased exponent in
the upper 11, fraction in the lower 52).  Every pair is a value; patterns
above the infinity pattern are NaNs. -/
structure F64 where
  neg : Bool
  mag : Nat
deriving DecidableEq, Repr

/-- The magnitude bits of an infinity: exponent field 2047, fraction 0. -/
def infMag : Nat := 2047 * 2 ^ 52

/-- The number of units of `2^-1074` (the smallest subnormal) in `1`. -/
def unitsPerOne : Nat := 2 ^ 1074

/-- The canonical quiet NaN. -/
def F64.nan : F64 := ⟨false, infMag + 2 ^ 51⟩

def F64.isNaN (x : F64) : Bool := decide (infMag < x.mag)

def F64.isInf (x : F64) : Bool := decide (x.mag = infMag)

def F64.isFinite (x : F64) : Bool := decide (x.mag < infMag)

/-- Magnitude of a finite `float64` in units of `2^-1074` (the smallest
subnormal): `fraction` for exponent field 0, and
`(2^52 + fraction) * 2^(field - 1)` otherwise. -/
def F64.scaled (x : F64) : Nat :=
  if x.mag / 2 ^ 52 = 0 then x.mag % 2 ^ 52
  else (2 ^ 52 + x.mag % 2 ^ 52) * 2 ^ (x.mag / 2 ^ 52 - 1)

/-- Floor of the binary logarithm, by repeated halving (`fuel` bounds the
number of halvings). -/
def ilog2Aux : Nat → Nat → Nat
  | 0, _ => 0
  | fuel + 1, n => if n < 2 then 0 else ilog2Aux fuel (n / 2) + 1

def ilog2 (n : Nat) : Nat := ilog2Aux n n

/-- The integer nearest to `n / d`, ties to the even one. -/
def roundHalfEven (n d : Nat) : Nat :=
  if d < 2 * (n % d) ∨ (2 * (n % d) = d ∧ (n / d) % 2 = 1) then n / d + 1 else n / d

/-- Round-to-nearest-even of the non-negative rational `n / d` (in units of
`2^-1074`) to binary64, as magnitude bits.  With `k` the exponent of the
unit in the last place, the significand `m = round (n / (d * 2^k))` lies in
`[0, 2^53]` and the bits are `k * 2^52 + m`; overflow saturates to the
infinity pattern. -/
def roundMag (n d : Nat) : Nat :=
  let k := ilog2 (n / d) - 52
  min (k * 2 ^ 52 + roundHalfEven n (d * 2 ^ k)) infMag

/-- The `float64` nearest to the decimal `n / d`, as `strconv.ParseFloat`
returns it for the flag `--size`. -/
def F64.ofRatio (neg : Bool) (n d : Nat) : F64 := ⟨neg, roundMag (n * unitsPerOne) d⟩

/-- IEEE multiplication `a * b`. -/
def F64.mul (a b : F64) : F64 :=
  if a.isNaN || b.isNaN then F64.nan
  else if a.isInf || b.isInf then
    (if a.mag = 0 ∨ b.mag = 0 then F64.nan else ⟨xor a.neg b.neg, infMag⟩)
  else ⟨xor a.neg b.neg, roundMag (a.scaled * b.scaled) unitsPerOne⟩

/-- Sum of two signed magnitudes `na / d` and `nb / d` (units of `2^-1074`),
rounded once.  An exact zero is `+0` unless both operands are negative. -/
def signedSum (sa : Bool) (na : Nat) (sb : Bool) (nb : Nat) (d : Nat) : F64 :=
  if sa = sb then ⟨sa, roundMag (na + nb) d⟩
  else if na = nb then ⟨false, 0⟩
  else if nb < na then ⟨sa, roundMag (na - nb) d⟩
  else ⟨sb, roundMag (nb - na) d⟩

/-- IEEE addition `a + b`. -/
def F64.add (a b : F64) : F64 :=
  if a.isNaN || b.isNaN then F64.nan
  else if a.isInf then (if b.isInf && (a.neg != b.neg) then F64.nan else a)
  else if b.isInf then b
  else signedSum a.neg a.scaled b.neg b.scaled 1

/-- Fused multiply-add `a + c * b` with a single rounding. -/
def F64.addMul (a c b : F64) : F64 :=
  if a.isNaN || c.isNaN || b.isNaN then F64.nan
  else if c.isInf || b.isInf then
    (if c.mag = 0 ∨ b.mag = 0 then F64.nan
     else if a.isInf && (a.neg != xor c.neg b.neg) then F64.nan
     else ⟨xor c.neg b.neg, infMag⟩)
  else if a.isInf then a
  else signedSum a.neg (a.scaled * unitsPerOne) (xor c.neg b.neg) (c.scaled * b.scaled) unitsPerOne

/-- The constant `0.1` converted to `float64`. -/
def tenth : F64 := F64.ofRatio false 1 10

/-- The expression `s + 0.1*s` of `Run`.  The Go specification lets an
implementation fuse `x*y + z` into one operation with a single rounding;
`fused` selects that evaluation, otherwise the product is rounded first. -/
def inflate (fused : Bool) (s : F64) : F64 :=
  if fused then F64.addMul s tenth s else F64.add s (F64.mul tenth s)

/-! ## `fmt.Sprintf("%.2f", x)` -/

def digitChar (d : Nat) : Char := Char.ofNat (48 + d)

/-- Decimal digits of `n`, most significant first, no leading zero. -/
def decimalAux : Nat → Nat → List Char
  | 0, _ => []
  | fuel + 1, n =>
    if n < 10 then [digitChar n] else decimalAux fuel (n / 10) ++ [digitChar (n % 10)]

def decimal (n : Nat) : List Char := decimalAux (n + 1) n

/-- The size in hundredths, rounded to nearest with ties to even, of a finite
`float64` magnitude. -/
def F64.hundredths (x : F64) : Nat := roundHalfEven (100 * x.scaled) unitsPerOne

/-- Result of `fmt.Sprintf("%.2f", x)`: the exact value correctly rounded
to two fractional digits; `NaN`, `+Inf` and `-Inf` for the non-finite
values. -/
def sprintf2f (x : F64) : String :=
  if x.isNaN then "NaN"
  else if x.isInf then (if x.neg then "-Inf" else "+Inf")
  else
    String.mk ((if x.neg then [Char.ofNat 45] else []) ++ decimal (x.hundredths / 100)
      ++ [Char.ofNat 46, digitChar (x.hundredths / 10 % 10), digitChar (x.hundredths % 10)])

/-! ## Constants and the parameter record -/

def defaultProvisioneStatefulName : String := "openebs-nfs-provisioner"

def defaultNFSClusterRoleName : String := "openebs-nfs-provisioner-runner"

/-- The default of the flag `--size`: the constant `5`, as a `float64`. -/
def defaultStorageSize : F64 := F64.ofRatio false 5 1

def defaultNFSClusterRoleBindingName : String := "openebs-run-nfs-provisioner"

def defaultNFSRoleName : String := "openebs-leader-locking-nfs-provisioner"

def defaultProvisionerName : String := "openebs.io/nfs"

def defaultOpenebsPVCName : String := "openebspvc"

def defaultNFSAccessMode : String := "ReadWriteMany"

def defaultNFSStorageClass : String := "openebs-nfs"

def defaultNFSPVCName : String := "openebs-nfs-pvc"

def defaultOpenebsStorageClass : String := "openebs-jiva-default"

/-- The lines of the constant `openebsNFSTemplate`, each with its line feed
(the raw string literal opens with one). -/
def templateLines : List String :=
  ["\n",
   "apiVersion: extensions/v1beta1\n",
   "kind: PodSecurityPolicy\n",
   "metadata:\n",
   "  name: \x7b\x7b .ProvisionerStatefulName \x7d\x7d\n",
   "spec:\n",
   "  fsGroup:\n",
   "    rule: RunAsAny\n",
   "  allowedCapabilities:\n",
   "  - DAC_READ_SEARCH\n",
   "  - SYS_RESOURCE\n",
   "  runAsUser:\n",
   "    rule: RunAsAny\n",
   "  seLinux:\n",
   "    rule: RunAsAny\n",
   "  supplementalGroups:\n",
   "    rule: RunAsAny\n",
   "  volumes:\n",
   "  - configMap\n",
   "  - downwardAPI\n",
   "  - emptyDir\n",
   "  - persistentVolumeClaim\n",
   "  - secret\n",
   "  - hostPath\n",
   "---\n",
   "kind: ClusterRole\n",
   "apiVersion: rbac.authorization.k8s.io/v1\n",
   "metadata:\n",
   "  name: \x7b\x7b .NFSClusterRoleName \x7d\x7d\n",
   "rules:\n",
   "  - apiGroups: [\"\"]\n",
   "    resources: [\"persistentvolumes\"]\n",
   "    verbs: [\"get\", \"list\", \"watch\", \"create\", \"delete\"]\n",
   "  - apiGroups: [\"\"]\n",
   "    resources: [\"persistentvolumeclaims\"]\n",
   "    verbs: [\"get\", \"list\", \"watch\", \"update\"]\n",
   "  - apiGroups: [\"storage.k8s.io\"]\n",
   "    resources: [\"storageclasses\"]\n",
   "    verbs: [\"get\", \"list\", \"watch\"]\n",
   "  - apiGroups: [\"\"]\n",
   "    resources: [\"events\"]\n",
   "    verbs: [\"create\", \"update\", \"patch\"]\n",
   "  - apiGroups: [\"\"]\n",
   "    resources: [\"services\", \"endpoints\"]\n",
   "    verbs: [\"get\"]\n",
   "  - apiGroups: [\"extensions\"]\n",
   "    resources: [\"podsecuritypolicies\"]\n",
   "    resourceNames: [\"nfs-provisioner\"]\n",
   "    verbs: [\"use\"]\n",
   "---\n",
   "kind: ClusterRoleBinding\n",
   "apiVersion: rbac.authorization.k8s.io/v1\n",
   "metadata:\n",
   "  name: \x7b\x7b .NFSClusterRoleBindingName \x7d\x7d\n",
   "subjects:\n",
   "  - kind: ServiceAccount\n",
   "    name: \x7b\x7b .ProvisionerStatefulName \x7d\x7d\n",
   "     # replace with namespace where provisioner is deployed\n",
   "    namespace: default\n",
   "roleRef:\n",
   "  kind: ClusterRole\n",
   "  name: \x7b\x7b .NFSClusterRoleName \x7d\x7d\n",
   "  apiGroup: rbac.authorization.k8s.io\n",
   "---\n",
   "kind: Role\n",
   "apiVersion: rbac.authorization.k8s.io/v1\n",
   "metadata:\n",
   "  name: \x7b\x7b .NFSRoleName \x7d\x7d\n",
   "rules:\n",
   "  - apiGroups: [\"\"]\n",
   "    resources: [\"endpoints\"]\n",
   "    verbs: [\"get\", \"list\", \"watch\", \"create\", \"update\", \"patch\"]\n",
   "---\n",
   "kind: RoleBinding\n",
   "apiVersion: rbac.authorization.k8s.io/v1\n",
   "metadata:\n",
   "  name: \x7b\x7b .NFSRoleName \x7d\x7d\n",
   "subjects:\n",
   "  - kind: ServiceAccount\n",
   "    name: \x7b\x7b .ProvisionerStatefulName \x7d\x7d\n",
   "    # replace with namespace where provisioner is deployed\n",
   "roleRef:\n",
   "  kind: Role\n",
   "  name: \x7b\x7b .NFSRoleName \x7d\x7d\n",
   "  apiGroup: rbac.authorization.k8s.io\n",
   "---\n",
   "apiVersion: v1\n",
   "kind: ServiceAccount\n",
   "metadata:\n",
   "  name: \x7b\x7b .ProvisionerStatefulName \x7d\x7d\n",
   "---\n",
   "kind: Service\n",
   "apiVersion: v1\n",
   "metadata:\n",
   "  name: \x7b\x7b .ProvisionerStatefulName \x7d\x7d\n",
   "  labels:\n",
   "    app: \x7b\x7b .ProvisionerStatefulName \x7d\x7d\n",
   "spec:\n",
   "  ports:\n",
   "    - name: nfs\n",
   "      port: 2049\n",
   "    - name: mountd\n",
   "      port: 20048\n",
   "    - name: rpcbind\n",
   "      port: 111\n",
   "    - name: rpcbind-udp\n",
   "      port: 111\n",
   "      protocol: UDP\n",
   "  selector:\n",
   "    app: \x7b\x7b .ProvisionerStatefulName \x7d\x7d\n",
   "---\n",
   "kind: Deployment\n",
   "apiVersion: apps/v1\n",
   "metadata:\n",
   "  name: \x7b\x7b .ProvisionerStatefulName \x7d\x7d\n",
   "spec:\n",
   "  selector:\n",
   "    matchLabels:\n",
   "      app: \x7b\x7b .ProvisionerStatefulName \x7d\x7d\n",
   "  replicas: 1\n",
   "  strategy:\n",
   "    type: Recreate\n",
   "  template:\n",
   "    metadata:\n",
   "      labels:\n",
   "        app: \x7b\x7b .ProvisionerStatefulName \x7d\x7d\n",
   "    spec:\n",
   "      serviceAccount: \x7b\x7b .ProvisionerStatefulName \x7d\x7d\n",
   "      terminationGracePeriodSeconds: 10\n",
   "      containers:\n",
   "        - name: \x7b\x7b .ProvisionerStatefulName \x7d\x7d\n",
   "          image: quay.io/kubernetes_incubator/nfs-provisioner:latest\n",
   "          ports:\n",
   "            - name: nfs\n",
   "              containerPort: 2049\n",
   "            - name: mountd\n",
   "              containerPort: 20048\n",
   "            - name: rpcbind\n",
   "              containerPort: 111\n",
   "            - name: rpcbind-udp\n",
   "              containerPort: 111\n",
   "              protocol: UDP\n",
   "          securityContext:\n",
   "            capabilities:\n",
   "              add:\n",
   "                - DAC_READ_SEARCH\n",
   "                - SYS_RESOURCE\n",
   "          args:\n",
   "            - \"-provisioner=\x7b\x7b .ProvisionerName \x7d\x7d\"\n",
   "          env:\n",
   "            - name: POD_IP\n",
   "              valueFrom:\n",
   "                fieldRef:\n",
   "                  fieldPath: status.podIP\n",
   "            - name: SERVICE_NAME\n",
   "              value: \x7b\x7b .ProvisionerStatefulName \x7d\x7d\n",
   "            - name: POD_NAMESPACE\n",
   "              valueFrom:\n",
   "                fieldRef:\n",
   "                  fieldPath: metadata.namespace\n",
   "          imagePullPolicy: \"IfNotPresent\"\n",
   "          volumeMounts:\n",
   "            - name: export-volume\n",
   "              mountPath: /export\n",
   "      # volumes:\n",
   "      #   - name: export-volume\n",
   "      #     hostPath:\n",
   "      #       path: /tmp\n",
   "      volumes:\n",
   "      - name: export-volume\n",
   "        persistentVolumeClaim:\n",
   "          claimName: \x7b\x7b .OpenebsPVCName \x7d\x7d\n",
   "---\n",
   "kind: PersistentVolumeClaim\n",
   "apiVersion: v1\n",
   "metadata:\n",
   "  name: \x7b\x7b .OpenebsPVCName \x7d\x7d\n",
   "spec:\n",
   "  storageClassName: \x7b\x7b .OpenebsStorageClass \x7d\x7d\n",
   "  accessModes:\n",
   "    - ReadWriteOnce\n",
   "  resources:\n",
   "    requests:\n",
   "      storage: \"\x7b\x7b .OpenebsStorageSize \x7d\x7d\"\n",
   "---\n",
   "kind: StorageClass  \n",
   "apiVersion: storage.k8s.io/v1\n",
   "metadata:\n",
   "  name: \x7b\x7b .NFSStorageClass \x7d\x7d\n",
   "provisioner: \x7b\x7b .ProvisionerName \x7d\x7d\n",
   "parameters:\n",
   "  mountOptions: \"vers=4.1\"  # TODO: reconcile with StorageClass.mountOptions\n",
   "---\n",
   "kind: PersistentVolumeClaim\n",
   "apiVersion: v1\n",
   "metadata:\n",
   "  name: \x7b\x7b .NFSPVCName \x7d\x7d\n",
   "  annotations:\n",
   "    volume.beta.kubernetes.io/storage-class: \"\x7b\x7b .NFSStorageClass \x7d\x7d\"\n",
   "spec:\n",
   "  accessModes:\n",
   "    - \x7b\x7b .NFSAccessMode \x7d\x7d\n",
   "  resources:\n",
   "    requests:\n",
   "      storage: \x7b\x7b .NFSStorageSize \x7d\x7d\n"]

def concatLines : List String → List Char
  | [] => []
  | l :: ls => l.data ++ concatLines ls

/-- The constant `openebsNFSTemplate`. -/
def openebsNFSTemplate : String := String.mk (concatLines templateLines)

/-- The struct `openebsNFS`. -/
structure openebsNFS where
  ProvisionerStatefulName : String
  ApplicationName : String
  NFSClusterRoleName : String
  NFSStorageSize : String
  OpenebsStorageSize : String
  NFSClusterRoleBindingName : String
  NFSRoleName : String
  ProvisionerName : String
  OpenebsPVCName : String
  NFSAccessMode : String
  NFSStorageClass : String
  NFSPVCName : String
  OpenebsStorageClass : String
  StorageSize : F64
deriving DecidableEq, Repr

/-- The global `openNFS` once `init` has zeroed it and the flags `--appname`,
`--size` and `--openebsstorageclass` have been stored into it. -/
def flagValues (app : String) (size : F64) (sc : String) : openebsNFS :=
  { ProvisionerStatefulName := "", ApplicationName := app, NFSClusterRoleName := "",
    NFSStorageSize := "", OpenebsStorageSize := "", NFSClusterRoleBindingName := "",
    NFSRoleName := "", ProvisionerName := "", OpenebsPVCName := "", NFSAccessMode := "",
    NFSStorageClass := "", NFSPVCName := "", OpenebsStorageClass := sc, StorageSize := size }

/-- The record `Run` assigns to the global `openNFS` before it calls
`generateTemplate`. -/
def deriveRecord (fused : Bool) (openNFS : openebsNFS) : openebsNFS :=
  let openebsStorageSize := sprintf2f (inflate fused openNFS.StorageSize) ++ "G"
  { ApplicationName := openNFS.ApplicationName
    ProvisionerStatefulName := openNFS.ApplicationName ++ "-" ++ defaultProvisioneStatefulName
    NFSClusterRoleName := openNFS.ApplicationName ++ "-" ++ defaultNFSClusterRoleName
    StorageSize := openNFS.StorageSize
    NFSClusterRoleBindingName := openNFS.ApplicationName ++ "-" ++ defaultNFSClusterRoleBindingName
    NFSRoleName := openNFS.ApplicationName ++ "-" ++ defaultNFSRoleName
    ProvisionerName := openNFS.ApplicationName ++ defaultProvisionerName
    OpenebsPVCName := openNFS.ApplicationName ++ defaultOpenebsPVCName
    NFSAccessMode := defaultNFSAccessMode
    NFSStorageClass := openNFS.ApplicationName ++ "-" ++ defaultNFSStorageClass
    NFSPVCName := openNFS.ApplicationName ++ "-" ++ defaultNFSPVCName
    OpenebsStorageClass := openNFS.OpenebsStorageClass
    NFSStorageSize := sprintf2f openNFS.StorageSize ++ "G"
    OpenebsStorageSize := openebsStorageSize }

/-! ## The template: parsing and execution (`html/template`) -/

def lbrace : Char := Char.ofNat 123

def rbrace : Char := Char.ofNat 125

/-- A parsed template: literal text and field actions. -/
inductive Node where
  | text (s : List Char)
  | field (name : String)
deriving DecidableEq, Repr

inductive TemplateError where
  | unsupported
  | missingField (name : String)
deriving DecidableEq, Repr

def isIdentChar (c : Char) : Bool := c.isAlphanum || c = Char.ofNat 95

def dropSpaces : List Char → List Char
  | [] => []
  | c :: cs => if c = Char.ofNat 32 then dropSpaces cs else c :: cs

/-- The field name at the head of the input, and what follows it. -/
def takeIdent : List Char → List Char × List Char
  | [] => ([], [])
  | c :: cs => if isIdentChar c then ((takeIdent cs).1.cons c, (takeIdent cs).2) else ([], c :: cs)

/-- The action after a left delimiter: blanks, a dot, a field name, blanks
and the right delimiter.  Gives the field name and the input after the right
delimiter; any other action is outside the fragment of the template language
modelled here. -/
def parseAction (input : List Char) : Option (String × List Char) :=
  match dropSpaces input with
  | c :: cs =>
    if c = Char.ofNat 46 then
      match takeIdent cs with
      | ([], _) => none
      | (name, rest) =>
        match dropSpaces rest with
        | c1 :: c2 :: rest2 => if c1 = rbrace ∧ c2 = rbrace then some (String.mk name, rest2) else none
        | _ => none
    else none
  | [] => none

def flushText (acc : List Char) (nodes : List Node) : List Node :=
  if acc = [] then nodes else Node.text acc.reverse :: nodes

/-- The lexer and parser of `template.Parse`: text up to a left delimiter
becomes a text node, an action becomes a field node.  `acc` holds the text
read so far, reversed.  A `<` in the text would switch the escaper of
`html/template` out of its text context, which is not modelled. -/
def parseNodes : Nat → List Char → List Char → Except TemplateError (List Node)
  | 0, _, _ => .error .unsupported
  | _ + 1, [], acc => .ok (flushText acc [])
  | _ + 1, [c], acc => if c = Char.ofNat 60 then .error .unsupported else .ok (flushText (c :: acc) [])
  | fuel + 1, c1 :: c2 :: rest, acc =>
    if c1 = lbrace ∧ c2 = lbrace then
      match parseAction rest with
      | some (name, rest2) =>
        match parseNodes fuel rest2 [] with
        | .ok nodes => .ok (flushText acc (Node.field name :: nodes))
        | .error e => .error e
      | none => .error .unsupported
    else if c1 = Char.ofNat 60 then .error .unsupported
    else parseNodes fuel (c2 :: rest) (c1 :: acc)

def parseTemplate (text : String) : Except TemplateError (List Node) :=
  parseNodes (text.data.length + 1) text.data []

/-- A field of the record as the template engine sees it. -/
inductive FieldValue where
  | str (s : String)
  | num (x : F64)
deriving DecidableEq, Repr

/-- Field lookup by name, as reflection on the struct `openebsNFS` does it. -/
def openebsNFS.lookup (r : openebsNFS) (name : String) : Option FieldValue :=
  if name = "ProvisionerStatefulName" then some (.str r.ProvisionerStatefulName)
  else if name = "ApplicationName" then some (.str r.ApplicationName)
  else if name = "NFSClusterRoleName" then some (.str r.NFSClusterRoleName)
  else if name = "NFSStorageSize" then some (.str r.NFSStorageSize)
  else if name = "OpenebsStorageSize" then some (.str r.OpenebsStorageSize)
  else if name = "NFSClusterRoleBindingName" then some (.str r.NFSClusterRoleBindingName)
  else if name = "NFSRoleName" then some (.str r.NFSRoleName)
  else if name = "ProvisionerName" then some (.str r.ProvisionerName)
  else if name = "OpenebsPVCName" then some (.str r.OpenebsPVCName)
  else if name = "NFSAccessMode" then some (.str r.NFSAccessMode)
  else if name = "NFSStorageClass" then some (.str r.NFSStorageClass)
  else if name = "NFSPVCName" then some (.str r.NFSPVCName)
  else if name = "OpenebsStorageClass" then some (.str r.OpenebsStorageClass)
  else if name = "StorageSize" then some (.num r.StorageSize)
  else none

/-- The replacement `html/template` writes for one character of a value in
HTML text context (`htmlReplacementTable`): NUL, the double quote, `&`, the
single quote, `+`, `<` and `>` are replaced, every other character is kept. -/
def htmlEscapeChar (c : Char) : List Char :=
  if c = Char.ofNat 0 then [Char.ofNat 65533]
  else if c = Char.ofNat 34 then "&#34;".data
  else if c = Char.ofNat 38 then "&amp;".data
  else if c = Char.ofNat 39 then "&#39;".data
  else if c = Char.ofNat 43 then "&#43;".data
  else if c = Char.ofNat 60 then "&lt;".data
  else if c = Char.ofNat 62 then "&gt;".data
  else [c]

def htmlEscape : List Char → List Char
  | [] => []
  | c :: cs => htmlEscapeChar c ++ htmlEscape cs

/-- Execution of a parsed template against a record: text is copied, a
string field is written HTML-escaped, a field the record lacks is an error.
(The template of this program names no numeric field; printing one is not
modelled.) -/
def execute (r : openebsNFS) : List Node → Except TemplateError (List Char)
  | [] => .ok []
  | Node.text s :: nodes =>
    match execute r nodes with
    | .ok out => .ok (s ++ out)
    | .error e => .error e
  | Node.field name :: nodes =>
    match r.lookup name with
    | some (.str v) =>
      match execute r nodes with
      | .ok out => .ok (htmlEscape v.data ++ out)
      | .error e => .error e
    | some (.num _) => .error .unsupported
    | none => .error (.missingField name)

/-- The file `generateTemplate` asks the operating system to create and the
text it writes there. -/
structure OutputFile where
  path : String
  content : String
deriving DecidableEq, Repr

/-- The function `generateTemplate`: parse the template, create
`<appname>-nfs.yaml`, execute the template into it.  An error stands for the
branches that print the error and exit with status 1.  The file system is
outside the model: `os.Create` is taken to accept the path. -/
def generateTemplate (openNFS : openebsNFS) : Except TemplateError OutputFile :=
  match parseTemplate openebsNFSTemplate with
  | .error e => .error e
  | .ok oNFSTeplate =>
    match execute openNFS oNFSTeplate with
    | .error e => .error e
    | .ok out => .ok ⟨openNFS.ApplicationName ++ "-nfs.yaml", String.mk out⟩

/-- The closure `RootCmd.Run`: rebuild the global record from the flag values
and generate the manifest.  Returns the new value of the global and the
outcome of `generateTemplate`. -/
def Run (fused : Bool) (openNFS : openebsNFS) : openebsNFS × Except TemplateError OutputFile :=
  (deriveRecord fused openNFS, generateTemplate (deriveRecord fused openNFS))

/-! ## Derived names and documents of the manifest -/

/-- The eight name fields `Run` derives from the application name, in the
order of the `default*` constants they are built from. -/
def derivedNames (r : openebsNFS) : List String :=
  [r.ProvisionerStatefulName, r.NFSClusterRoleName, r.NFSClusterRoleBindingName, r.NFSRoleName,
   r.ProvisionerName, r.OpenebsPVCName, r.NFSStorageClass, r.NFSPVCName]

/-- The fixed suffix constant each derived name is built from. -/
def defaultSuffixes : List String :=
  [defaultProvisioneStatefulName, defaultNFSClusterRoleName, defaultNFSClusterRoleBindingName,
   defaultNFSRoleName, defaultProvisionerName, defaultOpenebsPVCName, defaultNFSStorageClass,
   defaultNFSPVCName]

/-- How a derived name joins the application name and its suffix: with a
hyphen, with nothing, or in neither way. -/
def separatorOf (app name suffix : String) : Option String :=
  if name = app ++ "-" ++ suffix then some "-"
  else if name = app ++ suffix then some ""
  else none

def separators (app : String) (r : openebsNFS) : List (Option String) :=
  List.zipWith (separatorOf app) (derivedNames r) defaultSuffixes

/-- The pieces of `s` between occurrences of `sep`. -/
def splitOn {α : Type} [DecidableEq α] (sep : α) : List α → List (List α)
  | [] => [[]]
  | c :: cs =>
    if c = sep then [] :: splitOn sep cs
    else
      match splitOn sep cs with
      | [] => [[c]]
      | l :: ls => (c :: l) :: ls

def trimRight (l : List Char) : List Char :=
  (l.reverse.dropWhile (fun c => c = Char.ofNat 32)).reverse

/-- The YAML documents of a manifest: its lines, split at the lines that are
exactly the document marker `---`. -/
def documents (text : String) : List (List (List Char)) :=
  splitOn "---".data (splitOn (Char.ofNat 10) text.data)

/-- The kind of a document: the value of its top-level `kind:` line. -/
def kindOf (doc : List (List Char)) : Option String :=
  match doc.find? (fun l => "kind: ".data.isPrefixOf l) with
  | some l => some (String.mk (trimRight (l.drop 6)))
  | none => none

def templateKinds : List (Option String) := (documents openebsNFSTemplate).map kindOf

/-! ## Reading a size string back -/

def digitValue (c : Char) : Option Nat :=
  if 48 ≤ c.toNat ∧ c.toNat ≤ 57 then some (c.toNat - 48) else none

def parseDigitsAux (acc : Nat) : List Char → Option Nat
  | [] => some acc
  | c :: cs =>
    match digitValue c with
    | some d => parseDigitsAux (10 * acc + d) cs
    | none => none

/-- The value of a non-empty string of decimal digits. -/
def parseDigits (l : List Char) : Option Nat :=
  if l = [] then none else parseDigitsAux 0 l

/-- An optional minus sign and decimal digits: the sign and the value. -/
def parseSigned : List Char → Option (Bool × Nat)
  | [] => none
  | c :: cs =>
    if c = Char.ofNat 45 then (parseDigits cs).map (Prod.mk true)
    else (parseDigits (c :: cs)).map (Prod.mk false)

/-- The number written in a size string, in hundredths: the string must be
an optional minus sign, decimal digits, a point, exactly two decimal digits
and the unit `G`. -/
def writtenHundredths (s : String) : Option Int :=
  match s.data.reverse with
  | g :: d2 :: d1 :: p :: rest =>
    if g = Char.ofNat 71 ∧ p = Char.ofNat 46 then
      match digitValue d1, digitValue d2, parseSigned rest.reverse with
      | some a, some b, some (neg, i) =>
        some ((if neg then -1 else 1) * ((i * 100 + a * 10 + b : Nat) : Int))
      | _, _, _ => none
    else none
  | _ => none

/-- The number written in a size string. -/
def writtenNumber (s : String) : Option ℚ :=
  (writtenHundredths s).map (fun h => (h : ℚ) / 100)

/-- The real number a finite `float64` stands for. -/
def F64.toRat (x : F64) : ℚ := (if x.neg then -1 else 1) * (x.scaled : ℚ) / unitsPerOne

/-- The number `w` is `x` rounded to two decimal places: a whole number of
hundredths, nearest to `x`, the even one when two are equally near. -/
def IsRoundedTo2 (w x : ℚ) : Prop :=
  ∃ h : Int, w = (h : ℚ) / 100 ∧ |w - x| ≤ 1 / 200 ∧ (|w - x| = 1 / 200 → Even h)

/-! ## Placeholder markers and literal substitution -/

/-- The text holds a placeholder marker: two adjacent left braces or two
adjacent right braces. -/
def hasMarker : List Char → Bool
  | a :: b :: rest =>
    decide ((a = lbrace ∧ b = lbrace) ∨ (a = rbrace ∧ b = rbrace)) || hasMarker (b :: rest)
  | _ => false

/-- The template of the program, parsed. -/
def templateNodes : List Node :=
  match parseTemplate openebsNFSTemplate with
  | .ok nodes => nodes
  | .error _ => []

/-- The names of the placeholders of a parsed template. -/
def placeholders : List Node → List String
  | [] => []
  | Node.text _ :: nodes => placeholders nodes
  | Node.field name :: nodes => name :: placeholders nodes

/-- Every text node is non-empty and free of braces, and no two field nodes
are adjacent. -/
def separated : List Node → Bool
  | [] => true
  | Node.text s :: nodes =>
    !s.isEmpty && s.all (fun c => c ≠ lbrace && c ≠ rbrace) && separated nodes
  | [Node.field _] => true
  | Node.field _ :: Node.field _ :: _ => false
  | Node.field _ :: Node.text s :: nodes => separated (Node.text s :: nodes)

/-- The template with each placeholder replaced by the value of the field it
names, unchanged: what the specification calls resolving the placeholders
to literal strings. -/
def substituteLiteral (r : openebsNFS) : List Node → Except TemplateError (List Char)
  | [] => .ok []
  | Node.text s :: nodes =>
    match substituteLiteral r nodes with
    | .ok out => .ok (s ++ out)
    | .error e => .error e
  | Node.field name :: nodes =>
    match r.lookup name with
    | some (.str v) =>
      match substituteLiteral r nodes with
      | .ok out => .ok (v.data ++ out)
      | .error e => .error e
    | some (.num _) => .error .unsupported
    | none => .error (.missingField name)

/-- The text `Run` writes to the manifest file, when rendering succeeds. -/
def renderedText (fused : Bool) (app : String) (size : F64) (sc : String) : Option String :=
  match (Run fused (flagValues app size sc)).2 with
  | .ok file => some file.content
  | .error _ => none

/-! ## Placeholder slots of the manifest -/

/-- A placeholder of the template in its place: the number of `---` document
marker lines before it (the index of its document), the literal text between
the previous placeholder and it, and the field it names. -/
structure Slot where
  doc : Nat
  context : List Char
  field : String
deriving DecidableEq, Repr

/-- The number of document marker lines in a piece of template text. -/
def markerCount (s : List Char) : Nat :=
  ((splitOn (Char.ofNat 10) s).filter (fun l => l = "---".data)).length

/-- The slots of a parsed template, from document `doc` on, `ctx` being the
text read since the last placeholder. -/
def slotsFrom : Nat → List Char → List Node → List Slot
  | _, _, [] => []
  | doc, ctx, Node.text s :: nodes => slotsFrom (doc + markerCount s) (ctx ++ s) nodes
  | doc, ctx, Node.field name :: nodes => ⟨doc, ctx, name⟩ :: slotsFrom doc [] nodes

def templateSlots : List Slot := slotsFrom 0 [] templateNodes

/-! ## DNS-1123 label names -/

/-- A lowercase ASCII letter or a digit. -/
def isLowerAlnum (c : Char) : Bool := c.isLower || c.isDigit

/-- A character a DNS-1123 label may hold: lowercase letter, digit or `-`. -/
def isLabelChar (c : Char) : Bool := isLowerAlnum c || c = Char.ofNat 45

/-- The text starts and ends with a lowercase letter or a digit. -/
def startsAndEndsAlnum (l : List Char) : Bool :=
  (l.head?.map isLowerAlnum).getD false && (l.getLast?.map isLowerAlnum).getD false

/-- A valid DNS-1123 label, as far as its characters go: non-empty, only
lowercase ASCII letters, digits and `-`, starting and ending with a letter or
a digit. -/
def isDNS1123Label (s : String) : Bool :=
  !s.data.isEmpty && s.data.all isLabelChar && startsAndEndsAlnum s.data

/-! ## Lines of the manifest and the scalars a YAML reader finds on them

The reader of the manifest (`kubectl`) is not part of this repository.  The
definitions of this section are modelled from the YAML specification, for the
one-line scalars of the template: a plain scalar ends before a comment, a
double-quoted scalar ends at its closing quote.  A text outside this fragment
(an escape sequence, another quoting style, a key inside the value) has no
value here. -/

/-- Line `k` of a text, counted from 0.  The template begins with a line
break, so while no value holds a line break, line `k` of the manifest stems
from line `39 + k` of `root.go`. -/
def lineAt (text : List Char) (k : Nat) : Option (List Char) :=
  (splitOn (Char.ofNat 10) text)[k]?

/-- A space or a tab. -/
def isBlank (c : Char) : Bool := c = Char.ofNat 32 || c = Char.ofNat 9

def dropBlanks : List Char → List Char
  | [] => []
  | c :: cs => if isBlank c then dropBlanks cs else c :: cs

def trimBlanks (l : List Char) : List Char := (dropBlanks l.reverse).reverse

/-- The part of a line before its comment: a `#` that follows a blank starts
a comment. -/
def cutComment : List Char → List Char
  | a :: b :: rest =>
    if isBlank a && b = Char.ofNat 35 then [] else a :: cutComment (b :: rest)
  | l => l

/-- The indicator characters of YAML, which do not start a plain scalar:
`, [ ] \x7b \x7d # & * ! | > ' " % @` and the backquote. -/
def isIndicator (c : Char) : Bool :=
  [44, 91, 93, 123, 125, 35, 38, 42, 33, 124, 62, 39, 34, 37, 64, 96].contains c.toNat

/-- A plain scalar starts with a character that is no indicator; `-`, `?` and
`:` start one only when a character other than a blank follows. -/
def startsPlain : List Char → Bool
  | [] => false
  | [c] => !isIndicator c && !(c = Char.ofNat 45 || c = Char.ofNat 63 || c = Char.ofNat 58)
  | c :: d :: _ =>
    !isIndicator c && (!(c = Char.ofNat 45 || c = Char.ofNat 63 || c = Char.ofNat 58) || !isBlank d)

/-- The text holds a `:` followed by a blank or standing at its end: what
precedes it would be read as a key. -/
def hasKeyColon : List Char → Bool
  | [] => false
  | [c] => c = Char.ofNat 58
  | a :: b :: rest => (a = Char.ofNat 58 && isBlank b) || hasKeyColon (b :: rest)

/-- The value of a plain (unquoted) scalar that ends with its line: the text
before the comment, without trailing blanks. -/
def plainScalar (l : List Char) : Option (List Char) :=
  if startsPlain (trimBlanks (cutComment l)) && !hasKeyColon (trimBlanks (cutComment l)) then
    some (trimBlanks (cutComment l))
  else none

/-- The text of a double-quoted scalar up to its closing quote, and what
follows the quote.  Escape sequences are not modelled. -/
def quotedBody : List Char → Option (List Char × List Char)
  | [] => none
  | c :: cs =>
    if c = Char.ofNat 34 then some ([], cs)
    else if c = Char.ofNat 92 then none
    else
      match quotedBody cs with
      | some (v, rest) => some (c :: v, rest)
      | none => none

/-- Nothing but blanks and a comment. -/
def isLineEnd (l : List Char) : Bool := (cutComment l).all isBlank

/-- The value of a double-quoted scalar, given the text after its opening
quote: the text up to the closing quote, when only blanks and a comment
follow. -/
def doubleQuoted (l : List Char) : Option (List Char) :=
  match quotedBody l with
  | some (v, rest) => if isLineEnd rest then some v else none
  | none => none

/-- The scalar a YAML reader finds in the text that follows a key or a
sequence dash on one line. -/
def scalarValue (l : List Char) : Option (List Char) :=
  match dropBlanks l with
  | [] => none
  | c :: cs => if c = Char.ofNat 34 then doubleQuoted cs else plainScalar (c :: cs)

/-- The text of a line after a given beginning. -/
def afterLeading (key line : List Char) : Option (List Char) :=
  if key.isPrefixOf line then some (line.drop key.length) else none

/-- The scalar on line `k` of the text, after the key `key` (the indentation
and the colon and blank included). -/
def scalarAt (text : String) (k : Nat) (key : String) : Option (List Char) :=
  ((lineAt text.data k).bind (afterLeading key.data)).bind scalarValue

/-- The entries of a flow sequence of double-quoted scalars, given the text
after its opening bracket. -/
def flowEntries : Nat → List Char → Option (List (List Char))
  | 0, _ => none
  | fuel + 1, l =>
    match dropBlanks l with
    | [] => none
    | c :: cs =>
      if c = Char.ofNat 34 then
        match quotedBody cs with
        | none => none
        | some (v, rest) =>
          match dropBlanks rest with
          | [] => none
          | d :: ds =>
            if d = Char.ofNat 93 then (if isLineEnd ds then some [v] else none)
            else if d = Char.ofNat 44 then (flowEntries fuel ds).map (fun vs => v :: vs)
            else none
      else none

/-- The entries of the flow sequence on line `k` of the text, after the key
`key`. -/
def flowAt (text : String) (k : Nat) (key : String) : Option (List (List Char)) :=
  match ((lineAt text.data k).bind (afterLeading key.data)).map dropBlanks with
  | some (c :: cs) => if c = Char.ofNat 91 then flowEntries (cs.length + 1) cs else none
  | _ => none

/-! ## The template line by line -/

/-- The characters and placeholders of a parsed template, in order. -/
def items : List Node → List (Char ⊕ String)
  | [] => []
  | Node.text s :: nodes => s.map Sum.inl ++ items nodes
  | Node.field name :: nodes => Sum.inr name :: items nodes

/-- The lines of a parsed template. -/
def itemLines (nodes : List Node) : List (List (Char ⊕ String)) :=
  splitOn (Sum.inl (Char.ofNat 10)) (items nodes)

/-- What executing the template writes for one item: the character itself,
or the escaped value of the field. -/
def renderItem (r : openebsNFS) : Char ⊕ String → List Char
  | Sum.inl c => [c]
  | Sum.inr name =>
    match r.lookup name with
    | some (.str v) => htmlEscape v.data
    | _ => []

def renderItems (r : openebsNFS) : List (Char ⊕ String) → List Char
  | [] => []
  | i :: rest => renderItem r i ++ renderItems r rest

/-- A character of the derived names of a label: a lowercase letter, a digit,
`-`, `.` or `/`. -/
def isNameChar (c : Char) : Bool := isLabelChar c || c = Char.ofNat 46 || c = Char.ofNat 47

/-- No line of the text from line `a` to line `b` is the document marker
`---`: the lines belong to one YAML document. -/
def noMarkerBetween (text : List Char) (a b : Nat) : Prop :=
  ∀ k, a ≤ k → k ≤ b → lineAt text k ≠ some "---".data

/-- The line of the template is empty or begins with a character other than
a hyphen. -/
def startsWithoutHyphen : List (Char ⊕ String) → Bool
  | [] => true
  | Sum.inl c :: _ => c ≠ Char.ofNat 45
  | Sum.inr _ :: _ => false

/-- The characters and placeholders of one line of the template, given with
its line feed. -/
def lineItems (s : String) : List (Char ⊕ String) :=
  match parseTemplate s with
  | .ok nodes => (itemLines nodes).headD []
  | .error _ => []

/-! ## Theorems -/

theorem ilog2Aux_spec : ∀ (fuel n : Nat), 0 < n → n ≤ fuel →
    2 ^ ilog2Aux fuel n ≤ n ∧ n < 2 ^ (ilog2Aux fuel n + 1)
  | 0, n, h0, hf => by omega
  | fuel + 1, n, h0, hf => by
    unfold ilog2Aux
    by_cases h2 : n < 2
    · simp only [h2, if_true]
      constructor <;> simp <;> omega
    · simp only [h2, if_false]
      have ih := ilog2Aux_spec fuel (n / 2) (by omega) (by omega)
      obtain ⟨ih1, ih2⟩ := ih
      rw [pow_succ] at ih2 ⊢
      rw [pow_succ] at *
      constructor <;> omega

theorem ilog2_spec (n : Nat) (h0 : 0 < n) : 2 ^ ilog2 n ≤ n ∧ n < 2 ^ (ilog2 n + 1) :=
  ilog2Aux_spec n n h0 (le_refl n)

theorem ilog2_zero : ilog2 0 = 0 := rfl

/-- The quotient that `roundMag` rounds lies below `2^53`, and from `2^52` on
when the exponent of the last place is positive. -/
theorem quotient_range (n d : Nat) :
    n / (d * 2 ^ (ilog2 (n / d) - 52)) < 2 ^ 53 ∧
    (1 ≤ ilog2 (n / d) - 52 → 2 ^ 52 ≤ n / (d * 2 ^ (ilog2 (n / d) - 52))) := by
  rw [← Nat.div_div_eq_div_mul]
  set v := n / d with hv
  rcases Nat.eq_zero_or_pos v with h0 | hpos
  · rw [h0, ilog2_zero]
    simp
  · obtain ⟨h1, h2⟩ := ilog2_spec v hpos
    set L := ilog2 v with hL
    constructor
    · rw [Nat.div_lt_iff_lt_mul (by positivity)]
      calc v < 2 ^ (L + 1) := h2
        _ ≤ 2 ^ (53 + (L - 52)) := Nat.pow_le_pow_right (by norm_num) (by omega)
        _ = 2 ^ 53 * 2 ^ (L - 52) := by rw [pow_add]
    · intro hk
      rw [Nat.le_div_iff_mul_le (by positivity)]
      calc 2 ^ 52 * 2 ^ (L - 52) = 2 ^ (52 + (L - 52)) := by rw [pow_add]
        _ = 2 ^ L := by congr 1; omega
        _ ≤ v := h1

theorem roundHalfEven_ge (n d : Nat) : n / d ≤ roundHalfEven n d := by
  unfold roundHalfEven; split <;> omega

theorem roundHalfEven_le (n d : Nat) : roundHalfEven n d ≤ n / d + 1 := by
  unfold roundHalfEven; split <;> omega

theorem roundHalfEven_mono (n n' d : Nat) (h : n ≤ n') : roundHalfEven n d ≤ roundHalfEven n' d := by
  rcases Nat.eq_zero_or_pos d with hd | hd
  · subst hd; simp [roundHalfEven]; split_ifs <;> omega
  have hq : n / d ≤ n' / d := Nat.div_le_div_right h
  rcases Nat.lt_or_ge (n / d) (n' / d) with hlt | hge
  · calc roundHalfEven n d ≤ n / d + 1 := roundHalfEven_le n d
      _ ≤ n' / d := hlt
      _ ≤ roundHalfEven n' d := roundHalfEven_ge n' d
  · have hqe : n / d = n' / d := le_antisymm hq hge
    have hr : n % d ≤ n' % d := by
      have h1 := Nat.div_add_mod n d
      have h2 := Nat.div_add_mod n' d
      rw [hqe] at h1
      omega
    unfold roundHalfEven
    rw [hqe]
    split_ifs with c1 c2 c2 <;> omega


/-- Every finite magnitude is `m * 2^e` with a significand below `2^53`. -/
theorem scaled_repr (a : F64) : ∃ m e, a.scaled = m * 2 ^ e ∧ m < 2 ^ 53 := by
  unfold F64.scaled
  split
  · exact ⟨a.mag % 2 ^ 52, 0, by simp, by have := Nat.mod_lt a.mag (show 0 < 2 ^ 52 by norm_num); omega⟩
  · exact ⟨2 ^ 52 + a.mag % 2 ^ 52, a.mag / 2 ^ 52 - 1, rfl,
      by have := Nat.mod_lt a.mag (show 0 < 2 ^ 52 by norm_num); omega⟩

/-- Decoding the bits `k * 2^52 + m` gives `m * 2^k`, for a significand
`m ≤ 2^53` that is at least `2^52` when `k` is positive. -/
theorem scaled_encode (b : Bool) (k m : Nat) (hm : m ≤ 2 ^ 53) (hk : 1 ≤ k → 2 ^ 52 ≤ m) :
    (F64.mk b (k * 2 ^ 52 + m)).scaled = m * 2 ^ k := by
  unfold F64.scaled
  simp only
  have hdiv : (k * 2 ^ 52 + m) / 2 ^ 52 = k + m / 2 ^ 52 := by
    rw [Nat.add_comm, Nat.add_mul_div_right _ _ (by norm_num : 0 < 2 ^ 52), Nat.add_comm]
  have hmod : (k * 2 ^ 52 + m) % 2 ^ 52 = m % 2 ^ 52 := by
    rw [Nat.add_comm, Nat.add_mul_mod_self_right]
  rw [hdiv, hmod]
  rcases Nat.lt_or_ge m (2 ^ 52) with h1 | h1
  · have hk0 : k = 0 := by
      by_contra hne
      have := hk (by omega)
      omega
    subst hk0
    rw [Nat.div_eq_of_lt h1, Nat.mod_eq_of_lt h1, if_pos rfl, pow_zero, Nat.mul_one]
  · rcases Nat.lt_or_ge m (2 ^ 53) with h2 | h2
    · have hq : m / 2 ^ 52 = 1 := by
        apply Nat.div_eq_of_lt_le <;> omega
      have hr : m % 2 ^ 52 = m - 2 ^ 52 := by
        have := Nat.div_add_mod m (2 ^ 52)
        rw [hq] at this
        omega
      rw [hq, hr, if_neg (by omega), Nat.add_sub_of_le h1, Nat.add_sub_cancel]
    · have hm53 : m = 2 * 2 ^ 52 := by
        have : (2 : Nat) ^ 53 = 2 * 2 ^ 52 := by rw [pow_succ]; ring
        omega
      rw [hm53, Nat.mul_div_cancel _ (by norm_num : 0 < 2 ^ 52), Nat.mul_mod_left,
        if_neg (by omega), Nat.add_zero]
      have : k + 2 - 1 = k + 1 := by omega
      rw [this, pow_succ]
      ring

/-- The significand `roundMag` produces. -/
theorem significand_range (n d : Nat) :
    roundHalfEven n (d * 2 ^ (ilog2 (n / d) - 52)) ≤ 2 ^ 53 ∧
    (1 ≤ ilog2 (n / d) - 52 → 2 ^ 52 ≤ roundHalfEven n (d * 2 ^ (ilog2 (n / d) - 52))) := by
  obtain ⟨h1, h2⟩ := quotient_range n d
  constructor
  · have := roundHalfEven_le n (d * 2 ^ (ilog2 (n / d) - 52))
    omega
  · intro hk
    have := roundHalfEven_ge n (d * 2 ^ (ilog2 (n / d) - 52))
    have := h2 hk
    omega

/-- The value of the `float64` that `roundMag` returns, when it is finite. -/
theorem scaled_roundMag (b : Bool) (n d : Nat) (hfin : roundMag n d < infMag) :
    (F64.mk b (roundMag n d)).scaled =
      roundHalfEven n (d * 2 ^ (ilog2 (n / d) - 52)) * 2 ^ (ilog2 (n / d) - 52) := by
  obtain ⟨h1, h2⟩ := significand_range n d
  have hrm : roundMag n d =
      (ilog2 (n / d) - 52) * 2 ^ 52 + roundHalfEven n (d * 2 ^ (ilog2 (n / d) - 52)) := by
    unfold roundMag at hfin ⊢
    simp only at hfin ⊢
    omega
  rw [hrm]
  exact scaled_encode b _ _ h1 h2

/-- Rounding never goes below a representable magnitude that the exact value
reaches: if `m * 2^e ≤ n / d` with `m < 2^53`, the rounded significand times
its unit is at least `m * 2^e`. -/
theorem round_ge_repr (m e n d : Nat) (hm : m < 2 ^ 53) (hd : 0 < d) (h : m * 2 ^ e * d ≤ n) :
    m * 2 ^ e ≤ roundHalfEven n (d * 2 ^ (ilog2 (n / d) - 52)) * 2 ^ (ilog2 (n / d) - 52) := by
  set k := ilog2 (n / d) - 52 with hk
  have hq := roundHalfEven_ge n (d * 2 ^ k)
  obtain ⟨h1, h2⟩ := significand_range n d
  rw [← hk] at h1 h2
  rcases Nat.lt_or_ge e k with hlt | hge
  · have hM := h2 (by omega)
    calc m * 2 ^ e ≤ 2 ^ 53 * 2 ^ e := Nat.mul_le_mul_right _ (le_of_lt hm)
      _ = 2 ^ 52 * 2 ^ (e + 1) := by rw [pow_succ]; ring
      _ ≤ 2 ^ 52 * 2 ^ k := Nat.mul_le_mul_left _ (Nat.pow_le_pow_right (by norm_num) hlt)
      _ ≤ roundHalfEven n (d * 2 ^ k) * 2 ^ k := Nat.mul_le_mul_right _ hM
  · have he : 2 ^ e = 2 ^ (e - k) * 2 ^ k := by rw [← pow_add]; congr 1; omega
    have hle : m * 2 ^ (e - k) ≤ n / (d * 2 ^ k) := by
      rw [Nat.le_div_iff_mul_le (by positivity)]
      calc m * 2 ^ (e - k) * (d * 2 ^ k) = m * (2 ^ (e - k) * 2 ^ k) * d := by ring
        _ = m * 2 ^ e * d := by rw [← he]
        _ ≤ n := h
    calc m * 2 ^ e = m * 2 ^ (e - k) * 2 ^ k := by rw [he]; ring
      _ ≤ roundHalfEven n (d * 2 ^ k) * 2 ^ k := Nat.mul_le_mul_right _ (le_trans hle hq)

theorem digitValue_digitChar : ∀ d : Nat, d < 10 → digitValue (digitChar d) = some d := by
  decide

theorem parseDigitsAux_append (l l' : List Char) : ∀ acc : Nat,
    parseDigitsAux acc (l ++ l') = (parseDigitsAux acc l).bind (fun v => parseDigitsAux v l') := by
  induction l with
  | nil => intro acc; rfl
  | cons c cs ih =>
    intro acc
    simp only [List.cons_append, parseDigitsAux]
    cases digitValue c with
    | none => rfl
    | some d => exact ih _

theorem decimalAux_ne_nil : ∀ (fuel n : Nat), n < fuel → decimalAux fuel n ≠ []
  | 0, n, h => by omega
  | fuel + 1, n, h => by
    unfold decimalAux
    split <;> simp

theorem parseDigitsAux_decimalAux : ∀ (fuel n : Nat), n < fuel →
    parseDigitsAux 0 (decimalAux fuel n) = some n
  | 0, n, h => by omega
  | fuel + 1, n, h => by
    unfold decimalAux
    split
    · rename_i h10
      simp [parseDigitsAux, digitValue_digitChar n h10]
    · rename_i h10
      rw [parseDigitsAux_append, parseDigitsAux_decimalAux fuel (n / 10) (by omega)]
      simp only [Option.some_bind, parseDigitsAux, digitValue_digitChar (n % 10) (Nat.mod_lt _ (by norm_num))]
      congr 1
      omega

theorem parseDigits_decimal (n : Nat) : parseDigits (decimal n) = some n := by
  unfold parseDigits decimal
  rw [if_neg (decimalAux_ne_nil _ _ (Nat.lt_succ_self n))]
  exact parseDigitsAux_decimalAux _ _ (Nat.lt_succ_self n)

theorem digitValue_minus : digitValue (Char.ofNat 45) = none := by decide

theorem parseSigned_decimal (n : Nat) : parseSigned (decimal n) = some (false, n) := by
  have h := parseDigits_decimal n
  cases hd : decimal n with
  | nil => rw [hd] at h; simp [parseDigits] at h
  | cons c cs =>
    rw [hd] at h
    have hc : c ≠ Char.ofNat 45 := by
      intro hc
      subst hc
      simp [parseDigits, parseDigitsAux, digitValue_minus] at h
    simp only [parseSigned, if_neg hc, h, Option.map_some']

theorem parseSigned_minus_decimal (n : Nat) :
    parseSigned (Char.ofNat 45 :: decimal n) = some (true, n) := by
  simp only [parseSigned, if_true, parseDigits_decimal, Option.map_some']

/-- Reading back what `Sprintf("%.2f", x) + "G"` writes for a finite `x`
gives the rounded hundredths of `x`, with the sign of `x`. -/
theorem writtenHundredths_sprintf2f (x : F64) (hx : x.isFinite = true) :
    writtenHundredths (sprintf2f x ++ "G") =
      some ((if x.neg then -1 else 1) * (x.hundredths : Int)) := by
  have hlt : x.mag < infMag := by simpa [F64.isFinite] using hx
  have hnan : x.isNaN = false := by simp [F64.isNaN]; omega
  have hinf : x.isInf = false := by simp [F64.isInf]; omega
  have hd1 := digitValue_digitChar (x.hundredths / 10 % 10) (Nat.mod_lt _ (by norm_num))
  have hd2 := digitValue_digitChar (x.hundredths % 10) (Nat.mod_lt _ (by norm_num))
  have hsum : x.hundredths / 100 * 100 + x.hundredths / 10 % 10 * 10 + x.hundredths % 10
      = x.hundredths := by omega
  unfold writtenHundredths sprintf2f
  simp only [hnan, hinf, Bool.false_eq_true, if_false, String.data_append]
  have hG : (('G' : Char) = Char.ofNat 71) = True := by decide
  simp only [List.reverse_append, List.reverse_cons, List.reverse_nil, List.nil_append,
    List.cons_append, List.singleton_append, List.reverse_reverse, hG, and_self, if_true, hd1, hd2]
  cases hn : x.neg with
  | false =>
    simp only [Bool.false_eq_true, if_false, List.nil_append, parseSigned_decimal, hsum]
  | true =>
    simp only [if_true, List.singleton_append, parseSigned_minus_decimal, hsum]

theorem unitsPerOne_pos : 0 < unitsPerOne := by
  unfold unitsPerOne; positivity

theorem roundMag_le (n d : Nat) : roundMag n d ≤ infMag := by
  unfold roundMag
  exact Nat.min_le_right _ _

theorem tenth_mag : tenth.mag = 4591870180066957722 := by decide!

theorem tenth_neg : tenth.neg = false := rfl

theorem isFinite_iff (x : F64) : x.isFinite = true ↔ x.mag < infMag := by
  simp [F64.isFinite]

theorem not_isNaN_of_le (x : F64) (h : x.mag ≤ infMag) : x.isNaN = false := by
  simp [F64.isNaN]; omega

theorem tenth_isNaN : tenth.isNaN = false := by
  apply not_isNaN_of_le; rw [tenth_mag]; decide

theorem tenth_isInf : tenth.isInf = false := by
  simp only [F64.isInf, tenth_mag]; decide

/-- The separately rounded `s + 0.1*s` of a finite, non-negative size, when
it is finite: the product `0.1*s` is finite, and the sum is the rounding of
`s` plus that product. -/
theorem inflate_unfused_form (s : F64) (hs : s.isFinite = true) (hneg : s.neg = false)
    (hx : (inflate false s).isFinite = true) :
    roundMag (tenth.scaled * s.scaled) unitsPerOne < infMag ∧
    inflate false s = ⟨false, roundMag (s.scaled +
      (F64.mk false (roundMag (tenth.scaled * s.scaled) unitsPerOne)).scaled) 1⟩ := by
  have hlt : s.mag < infMag := (isFinite_iff s).1 hs
  have hnan : s.isNaN = false := not_isNaN_of_le s (le_of_lt hlt)
  have hinf : s.isInf = false := by simp [F64.isInf]; omega
  have hmul : F64.mul tenth s = ⟨false, roundMag (tenth.scaled * s.scaled) unitsPerOne⟩ := by
    simp [F64.mul, tenth_isNaN, tenth_isInf, hnan, hinf, hneg, tenth_neg]
  simp only [inflate, Bool.false_eq_true, if_false, hmul] at hx ⊢
  set t : F64 := ⟨false, roundMag (tenth.scaled * s.scaled) unitsPerOne⟩ with ht
  have htnan : t.isNaN = false := not_isNaN_of_le t (roundMag_le _ _)
  by_cases htinf : t.isInf = true
  · exfalso
    have hadd : F64.add s t = t := by
      simp [F64.add, hnan, htnan, hinf, htinf]
    rw [hadd] at hx
    simp [F64.isFinite, F64.isInf] at hx htinf
    omega
  · have htinf' : t.isInf = false := by simpa using htinf
    have htlt : t.mag < infMag := by
      have h1 : t.mag ≤ infMag := roundMag_le _ _
      have h2 : t.mag ≠ infMag := by simpa [F64.isInf] using htinf'
      omega
    refine ⟨htlt, ?_⟩
    simp [F64.add, hnan, htnan, hinf, htinf', signedSum, hneg, ht]

/-- The fused `s + 0.1*s` of a finite, non-negative size: one rounding of the
exact value. -/
theorem inflate_fused_form (s : F64) (hs : s.isFinite = true) (hneg : s.neg = false) :
    inflate true s =
      ⟨false, roundMag (s.scaled * unitsPerOne + tenth.scaled * s.scaled) unitsPerOne⟩ := by
  have hlt : s.mag < infMag := (isFinite_iff s).1 hs
  have hnan : s.isNaN = false := not_isNaN_of_le s (le_of_lt hlt)
  have hinf : s.isInf = false := by simp [F64.isInf]; omega
  simp [inflate, F64.addMul, tenth_isNaN, tenth_isInf, hnan, hinf, hneg, tenth_neg, signedSum]

/-- For a finite, non-negative size whose inflated value is finite, the
inflated value is non-negative and not below the size, in either evaluation
of `s + 0.1*s`. -/
theorem inflate_ge (fused : Bool) (s : F64) (hs : s.isFinite = true) (hneg : s.neg = false)
    (hx : (inflate fused s).isFinite = true) :
    (inflate fused s).neg = false ∧ s.scaled ≤ (inflate fused s).scaled := by
  obtain ⟨m, e, hrepr, hm⟩ := scaled_repr s
  cases fused with
  | false =>
    obtain ⟨_, hform⟩ := inflate_unfused_form s hs hneg hx
    rw [hform] at hx ⊢
    have hfin := (isFinite_iff _).1 hx
    refine ⟨rfl, ?_⟩
    rw [scaled_roundMag false _ _ hfin, hrepr]
    apply round_ge_repr m e _ 1 hm (by norm_num)
    rw [← hrepr]
    omega
  | true =>
    have hform := inflate_fused_form s hs hneg
    rw [hform] at hx ⊢
    have hfin := (isFinite_iff _).1 hx
    refine ⟨rfl, ?_⟩
    rw [scaled_roundMag false _ _ hfin, hrepr]
    apply round_ge_repr m e _ _ hm unitsPerOne_pos
    rw [← hrepr]
    omega

theorem hundredths_mono (x y : F64) (h : x.scaled ≤ y.scaled) : x.hundredths ≤ y.hundredths := by
  unfold F64.hundredths
  exact roundHalfEven_mono _ _ _ (Nat.mul_le_mul_left _ h)

/-- The rounded quotient is within half a unit of the exact one, and even
when exactly half a unit away. -/
theorem roundHalfEven_error (n d : Nat) (hd : 0 < d) :
    2 * (roundHalfEven n d * d) ≤ 2 * n + d ∧ 2 * n ≤ 2 * (roundHalfEven n d * d) + d ∧
    ((2 * (roundHalfEven n d * d) = 2 * n + d ∨ 2 * n = 2 * (roundHalfEven n d * d) + d) →
      roundHalfEven n d % 2 = 0) := by
  have hdm := Nat.div_add_mod n d
  have hr := Nat.mod_lt n hd
  have hmul : d * (n / d) = n / d * d := Nat.mul_comm _ _
  by_cases hc : d < 2 * (n % d) ∨ (2 * (n % d) = d ∧ (n / d) % 2 = 1)
  · simp only [roundHalfEven, if_pos hc, Nat.add_mul, Nat.one_mul]
    omega
  · simp only [roundHalfEven, if_neg hc]
    omega

theorem toRat_eq (x : F64) :
    x.toRat = (if x.neg then -1 else 1) * ((x.scaled : ℚ) / (unitsPerOne : ℚ)) := by
  unfold F64.toRat
  rw [mul_div_assoc]

/-- A signed quotient `h / 100` with `h` within half a unit of `100 * s / u`,
even on a tie, is `s / u` rounded to two decimal places. -/
theorem isRoundedTo2_of_bounds (neg : Bool) (H S U : Nat) (hU : 0 < U)
    (h1 : 2 * (H * U) ≤ 2 * (100 * S) + U) (h2 : 2 * (100 * S) ≤ 2 * (H * U) + U)
    (h3 : (2 * (H * U) = 2 * (100 * S) + U ∨ 2 * (100 * S) = 2 * (H * U) + U) → H % 2 = 0) :
    IsRoundedTo2 ((((if neg then -1 else 1) * (H : Int) : Int) : ℚ) / 100)
      ((if neg then -1 else 1) * ((S : ℚ) / (U : ℚ))) := by
  have hUq : (0 : ℚ) < (U : ℚ) := by exact_mod_cast hU
  have q1 : 2 * ((H : ℚ) * U) ≤ 2 * (100 * (S : ℚ)) + U := by exact_mod_cast h1
  have q2 : 2 * (100 * (S : ℚ)) ≤ 2 * ((H : ℚ) * U) + U := by exact_mod_cast h2
  have key : (H : ℚ) / 100 - (S : ℚ) / U = ((H : ℚ) * U - 100 * S) / (100 * U) := by
    field_simp
  have habs : |((((if neg then -1 else 1) * (H : Int) : Int) : ℚ) / 100)
        - (if neg then -1 else 1) * ((S : ℚ) / (U : ℚ))|
      = |(H : ℚ) / 100 - (S : ℚ) / U| := by
    cases neg with
    | false => simp
    | true =>
      simp only [if_true, Int.cast_mul, Int.cast_neg, Int.cast_one, Int.cast_natCast]
      rw [← abs_neg]
      congr 1
      ring
  refine ⟨_, rfl, ?_, ?_⟩
  · rw [habs, key, abs_div, abs_of_pos (by positivity : (0 : ℚ) < 100 * U),
      div_le_iff₀ (by positivity), abs_le]
    constructor <;> linarith
  · intro htie
    rw [habs, key, abs_div, abs_of_pos (by positivity : (0 : ℚ) < 100 * U),
      div_eq_iff (by positivity)] at htie
    have hev : H % 2 = 0 := by
      apply h3
      rcases abs_cases ((H : ℚ) * U - 100 * S) with ⟨he, _⟩ | ⟨he, _⟩
      · left
        have : 2 * ((H : ℚ) * U) = 2 * (100 * (S : ℚ)) + U := by
          rw [he] at htie; linarith
        exact_mod_cast this
      · right
        have : 2 * (100 * (S : ℚ)) = 2 * ((H : ℚ) * U) + U := by
          rw [he] at htie; linarith
        exact_mod_cast this
    have hE : Even (H : Int) := by
      rw [Int.even_iff]; omega
    cases neg with
    | false => simpa using hE
    | true => simpa using hE

/-- The hundredths `Sprintf("%.2f", x)` writes are `x` rounded to two decimal
places. -/
theorem isRoundedTo2_hundredths (x : F64) :
    IsRoundedTo2 ((((if x.neg then -1 else 1) * (x.hundredths : Int) : Int) : ℚ) / 100) x.toRat := by
  obtain ⟨h1, h2, h3⟩ := roundHalfEven_error (100 * x.scaled) unitsPerOne unitsPerOne_pos
  rw [toRat_eq]
  exact isRoundedTo2_of_bounds x.neg x.hundredths x.scaled unitsPerOne unitsPerOne_pos h1 h2 h3

theorem writtenNumber_sprintf2f (x : F64) (hx : x.isFinite = true) :
    writtenNumber (sprintf2f x ++ "G") =
      some ((((if x.neg then -1 else 1) * (x.hundredths : Int) : Int) : ℚ) / 100) := by
  unfold writtenNumber
  rw [writtenHundredths_sprintf2f x hx]
  rfl

theorem toRat_nonneg_cases (x : F64) (h : 0 ≤ x.toRat) : x.neg = false ∨ x.scaled = 0 := by
  rw [toRat_eq] at h
  have hU : (0 : ℚ) < (unitsPerOne : ℚ) := by exact_mod_cast unitsPerOne_pos
  cases hn : x.neg with
  | false => left; rfl
  | true =>
    right
    rw [hn] at h
    simp only [if_true, neg_mul, one_mul, Left.nonneg_neg_iff] at h
    have h2 : (x.scaled : ℚ) ≤ 0 := by
      by_contra hc
      push_neg at hc
      have := div_pos hc hU
      linarith
    have : x.scaled ≤ 0 := by exact_mod_cast h2
    omega

theorem scaled_eq_zero (x : F64) (h : x.scaled = 0) : x.mag = 0 := by
  unfold F64.scaled at h
  split at h
  · rename_i h0
    have := Nat.div_add_mod x.mag (2 ^ 52)
    rw [h0, h] at this
    omega
  · have hp : 0 < 2 ^ (x.mag / 2 ^ 52 - 1) := by positivity
    have := Nat.mul_eq_zero.1 h
    omega

theorem toRat_pos (x : F64) (hn : x.neg = false) (hp : 0 < x.scaled) : 0 < x.toRat := by
  rw [toRat_eq, hn]
  have hU : (0 : ℚ) < (unitsPerOne : ℚ) := by exact_mod_cast unitsPerOne_pos
  have hS : (0 : ℚ) < (x.scaled : ℚ) := by exact_mod_cast hp
  simp only [Bool.false_eq_true, if_false, one_mul]
  exact div_pos hS hU

theorem toRat_pos_cases (x : F64) (h : 0 < x.toRat) : x.neg = false := by
  rcases toRat_nonneg_cases x (le_of_lt h) with h1 | h1
  · exact h1
  · rw [toRat_eq, h1] at h
    simp at h

theorem nfsStorageSize_eq (fused : Bool) (app : String) (s : F64) (sc : String) :
    (Run fused (flagValues app s sc)).1.NFSStorageSize = sprintf2f s ++ "G" := rfl

theorem openebsStorageSize_eq (fused : Bool) (app : String) (s : F64) (sc : String) :
    (Run fused (flagValues app s sc)).1.OpenebsStorageSize = sprintf2f (inflate fused s) ++ "G" := rfl

theorem inflate_negZero (fused : Bool) : inflate fused ⟨true, 0⟩ = ⟨true, 0⟩ := by
  cases fused <;> decide!

/-- The hundredths written for the inflated size are not below those written
for the size itself, for a finite size that is not negative. -/
theorem hundredths_inflate_ge (fused : Bool) (s : F64) (hs : s.isFinite = true)
    (h0 : 0 ≤ s.toRat) (hx : (inflate fused s).isFinite = true) :
    (((if s.neg then -1 else 1) * (s.hundredths : Int) : Int) : ℚ) / 100 ≤
      (((if (inflate fused s).neg then -1 else 1) * ((inflate fused s).hundredths : Int) : Int) : ℚ) / 100 := by
  rcases toRat_nonneg_cases s h0 with hneg | hzero
  · obtain ⟨hxneg, hle⟩ := inflate_ge fused s hs hneg hx
    have hm := hundredths_mono _ _ hle
    rw [hneg, hxneg]
    simp only [Bool.false_eq_true, if_false, one_mul, Int.cast_natCast]
    have : (s.hundredths : ℚ) ≤ ((inflate fused s).hundredths : ℚ) := by exact_mod_cast hm
    linarith
  · cases hn : s.neg with
    | false =>
      obtain ⟨hxneg, hle⟩ := inflate_ge fused s hs hn hx
      have hm := hundredths_mono _ _ hle
      rw [hxneg]
      simp only [Bool.false_eq_true, if_false, one_mul, Int.cast_natCast]
      have : (s.hundredths : ℚ) ≤ ((inflate fused s).hundredths : ℚ) := by exact_mod_cast hm
      linarith
    | true =>
      have hmag := scaled_eq_zero s hzero
      have hse : s = ⟨true, 0⟩ := by
        cases s
        simp only at hmag hn
        rw [hmag, hn]
      rw [hse, inflate_negZero]

/-- Rounding error of `roundMag`: the finite result is within half a unit in
the last place of `n / d`, and that unit is at most `max 1 (n / d / 2^52)`. -/
theorem roundMag_error (b : Bool) (n d : Nat) (hd : 0 < d) (hfin : roundMag n d < infMag) :
    |((F64.mk b (roundMag n d)).scaled : ℚ) - (n : ℚ) / d| ≤ 1 / 2 + (n : ℚ) / d / 2 ^ 53 := by
  rw [scaled_roundMag b n d hfin]
  set k := ilog2 (n / d) - 52 with hk
  set M := roundHalfEven n (d * 2 ^ k) with hM
  have hdk : 0 < d * 2 ^ k := by positivity
  obtain ⟨e1, e2, _⟩ := roundHalfEven_error n (d * 2 ^ k) hdk
  rw [← hM] at e1 e2
  have hq := (quotient_range n d).2
  rw [← hk] at hq
  have hD : (0 : ℚ) < (d : ℚ) := by exact_mod_cast hd
  have hK : (1 : ℚ) ≤ (2 : ℚ) ^ k := one_le_pow₀ (by norm_num)
  have hN : (0 : ℚ) ≤ (n : ℚ) := by positivity
  have hv : (0 : ℚ) ≤ (n : ℚ) / d := by positivity
  have q1 : 2 * ((M : ℚ) * (d * 2 ^ k)) ≤ 2 * n + d * 2 ^ k := by exact_mod_cast e1
  have q2 : 2 * (n : ℚ) ≤ 2 * ((M : ℚ) * (d * 2 ^ k)) + d * 2 ^ k := by exact_mod_cast e2
  have hnv : (n : ℚ) = (n : ℚ) / d * d := by field_simp
  have hKle : (2 : ℚ) ^ k ≤ 1 + (n : ℚ) / d / 2 ^ 52 := by
    rcases Nat.eq_zero_or_pos k with h0 | hpos
    · rw [h0, pow_zero]
      have : (0 : ℚ) ≤ (n : ℚ) / d / 2 ^ 52 := by positivity
      linarith
    · have h52 := hq hpos
      rw [Nat.le_div_iff_mul_le hdk] at h52
      have h52q : (2 : ℚ) ^ 52 * (d * 2 ^ k) ≤ n := by exact_mod_cast h52
      have : (2 : ℚ) ^ k ≤ (n : ℚ) / d / 2 ^ 52 := by
        rw [le_div_iff₀ (by positivity), le_div_iff₀ hD]
        linarith
      linarith
  push_cast
  have hup : (M : ℚ) * 2 ^ k ≤ (n : ℚ) / d + 2 ^ k / 2 := by
    have : ((M : ℚ) * 2 ^ k) * d ≤ ((n : ℚ) / d + 2 ^ k / 2) * d := by
      rw [add_mul, ← hnv]
      linarith
    exact le_of_mul_le_mul_right this hD
  have hlo : (n : ℚ) / d - 2 ^ k / 2 ≤ (M : ℚ) * 2 ^ k := by
    have : ((n : ℚ) / d - 2 ^ k / 2) * d ≤ ((M : ℚ) * 2 ^ k) * d := by
      rw [sub_mul, ← hnv]
      linarith
    exact le_of_mul_le_mul_right this hD
  have h53 : (n : ℚ) / d / 2 ^ 53 = (n : ℚ) / d / 2 ^ 52 / 2 := by
    rw [div_div, div_div, div_div]
    norm_num
  rw [abs_le, h53]
  constructor <;> linarith

theorem tenth_scaled : 10 * 2 ^ 54 * tenth.scaled = (2 ^ 54 + 1) * unitsPerOne := by decide!

/-- The value `float64` computes for `s + 0.1*s` differs from `1.1 * s` by at
most two units of `2^-1074` plus `s / 2^52`. -/
theorem inflate_error (fused : Bool) (s : F64) (hs : s.isFinite = true) (hneg : s.neg = false)
    (hx : (inflate fused s).isFinite = true) :
    |((inflate fused s).scaled : ℚ) - 11 / 10 * (s.scaled : ℚ)| ≤ 2 + (s.scaled : ℚ) / 2 ^ 52 := by
  have hU : (0 : ℚ) < (unitsPerOne : ℚ) := by exact_mod_cast unitsPerOne_pos
  have hS : (0 : ℚ) ≤ (s.scaled : ℚ) := by positivity
  have hC : 10 * 2 ^ 54 * (tenth.scaled : ℚ) = (2 ^ 54 + 1) * (unitsPerOne : ℚ) := by
    exact_mod_cast tenth_scaled
  have hCS : (tenth.scaled : ℚ) * s.scaled / unitsPerOne
      = (2 ^ 54 + 1) / (10 * 2 ^ 54) * (s.scaled : ℚ) := by
    field_simp
    linear_combination (s.scaled : ℚ) * hC
  cases fused with
  | false =>
    obtain ⟨htfin, hform⟩ := inflate_unfused_form s hs hneg hx
    rw [hform] at hx ⊢
    have hfin := (isFinite_iff _).1 hx
    have e1 := roundMag_error false _ _ unitsPerOne_pos htfin
    have e2 := roundMag_error false _ 1 (by norm_num) hfin
    set T := (F64.mk false (roundMag (tenth.scaled * s.scaled) unitsPerOne)).scaled with hT
    set X := (F64.mk false (roundMag (s.scaled + T) 1)).scaled with hX
    push_cast at e1 e2
    rw [hCS] at e1
    simp only [div_one] at e2
    rw [abs_le] at e1 e2 ⊢
    have hp : (0 : ℚ) ≤ (s.scaled : ℚ) / 2 ^ 52 := by positivity
    constructor <;> norm_num at e1 e2 ⊢ <;> linarith
  | true =>
    have hform := inflate_fused_form s hs hneg
    rw [hform] at hx ⊢
    have hfin := (isFinite_iff _).1 hx
    have e1 := roundMag_error false _ _ unitsPerOne_pos hfin
    set X := (F64.mk false (roundMag (s.scaled * unitsPerOne + tenth.scaled * s.scaled) unitsPerOne)).scaled with hX
    push_cast at e1
    have hsum : ((s.scaled : ℚ) * unitsPerOne + tenth.scaled * s.scaled) / unitsPerOne
        = (s.scaled : ℚ) + (2 ^ 54 + 1) / (10 * 2 ^ 54) * (s.scaled : ℚ) := by
      rw [add_div, hCS]
      field_simp
    rw [hsum] at e1
    rw [abs_le] at e1 ⊢
    constructor <;> norm_num at e1 ⊢ <;> linarith

theorem roundHalfEven_le_of_lt (n d q : Nat) (hd : 0 < d) (h : 2 * n < (2 * q + 1) * d) :
    roundHalfEven n d ≤ q := by
  obtain ⟨e1, _, _⟩ := roundHalfEven_error n d hd
  by_contra hc
  have h1 : (q + 1) * d ≤ roundHalfEven n d * d := Nat.mul_le_mul_right d (by omega)
  have h2 : (2 * q + 1) * d = 2 * (q * d) + d := by ring
  have h3 : (q + 1) * d = q * d + d := by ring
  omega

theorem roundHalfEven_ge_of_lt (n d q : Nat) (hd : 0 < d) (h : (2 * q + 1) * d < 2 * n) :
    q + 1 ≤ roundHalfEven n d := by
  obtain ⟨_, e2, _⟩ := roundHalfEven_error n d hd
  by_contra hc
  have h1 : roundHalfEven n d * d ≤ q * d := Nat.mul_le_mul_right d (by omega)
  have h2 : (2 * q + 1) * d = 2 * (q * d) + d := by ring
  omega

/-- Two exact values more than one unit apart round to different integers. -/
theorem roundHalfEven_lt_of_add_lt (n n' d : Nat) (hd : 0 < d) (h : n + d < n') :
    roundHalfEven n d < roundHalfEven n' d := by
  have hdm := Nat.div_add_mod n d
  have hdm' := Nat.div_add_mod n' d
  have hr := Nat.mod_lt n hd
  have hr' := Nat.mod_lt n' hd
  have hq : n / d + 1 ≤ n' / d := by
    rw [← Nat.add_div_right n hd]
    exact Nat.div_le_div_right (by omega)
  rcases Nat.lt_or_ge (n / d + 1) (n' / d) with h2 | h2
  · calc roundHalfEven n d ≤ n / d + 1 := roundHalfEven_le n d
      _ < n' / d := h2
      _ ≤ roundHalfEven n' d := roundHalfEven_ge n' d
  · have hqe : n' / d = n / d + 1 := by omega
    have hmul : d * (n / d + 1) = d * (n / d) + d := by ring
    rw [hqe, hmul] at hdm'
    have hrr : n % d < n' % d := by omega
    unfold roundHalfEven
    rw [hqe]
    split_ifs with c1 c2 c2 <;> omega

theorem unitsPerOne_large : 1048576 ≤ unitsPerOne := by decide!

/-- From one tenth on, the hundredths written for the inflated size exceed
those written for the size. -/
theorem hundredths_inflate_gt (fused : Bool) (s : F64) (hs : s.isFinite = true)
    (hneg : s.neg = false) (h10 : unitsPerOne ≤ 10 * s.scaled)
    (hx : (inflate fused s).isFinite = true) :
    s.hundredths < (inflate fused s).hundredths := by
  have herr := inflate_error fused s hs hneg hx
  rw [abs_le] at herr
  obtain ⟨hlo, _⟩ := herr
  have hU : (1048576 : ℚ) ≤ (unitsPerOne : ℚ) := by exact_mod_cast unitsPerOne_large
  have h10q : (unitsPerOne : ℚ) ≤ 10 * (s.scaled : ℚ) := by exact_mod_cast h10
  unfold F64.hundredths
  rcases Nat.lt_or_ge (104 * unitsPerOne) (1000 * s.scaled) with hB | hA
  · apply roundHalfEven_lt_of_add_lt _ _ _ unitsPerOne_pos
    have hBq : 104 * (unitsPerOne : ℚ) < 1000 * (s.scaled : ℚ) := by exact_mod_cast hB
    have : 100 * (s.scaled : ℚ) + unitsPerOne < 100 * ((inflate fused s).scaled : ℚ) := by
      norm_num at hlo ⊢
      linarith
    exact_mod_cast this
  · have hAq : 1000 * (s.scaled : ℚ) ≤ 104 * (unitsPerOne : ℚ) := by exact_mod_cast hA
    have h1 : roundHalfEven (100 * s.scaled) unitsPerOne ≤ 10 := by
      apply roundHalfEven_le_of_lt _ _ _ unitsPerOne_pos
      have := unitsPerOne_pos
      omega
    have h2 : 10 + 1 ≤ roundHalfEven (100 * (inflate fused s).scaled) unitsPerOne := by
      apply roundHalfEven_ge_of_lt _ _ _ unitsPerOne_pos
      have : (2 * 10 + 1) * (unitsPerOne : ℚ) < 2 * (100 * ((inflate fused s).scaled : ℚ)) := by
        norm_num at hlo ⊢
        linarith
      exact_mod_cast this
    omega

theorem toRat_of_nonneg (x : F64) (hn : x.neg = false) :
    x.toRat = (x.scaled : ℚ) / (unitsPerOne : ℚ) := by
  rw [toRat_eq, hn]
  simp

theorem tenth_le_toRat (s : F64) (hn : s.neg = false) (h : 1 / 10 ≤ s.toRat) :
    unitsPerOne ≤ 10 * s.scaled := by
  rw [toRat_of_nonneg s hn] at h
  have hU : (0 : ℚ) < (unitsPerOne : ℚ) := by exact_mod_cast unitsPerOne_pos
  rw [le_div_iff₀ hU] at h
  have : (unitsPerOne : ℚ) ≤ 10 * (s.scaled : ℚ) := by linarith
  exact_mod_cast this

theorem writtenNumber_of_hundredths (str : String) (h : Int) (hh : writtenHundredths str = some h) :
    writtenNumber str = some ((h : ℚ) / 100) := by
  simp [writtenNumber, hh]

/-- The error bound of `inflate_error`, on the real values. -/
theorem inflate_toRat_error (fused : Bool) (s : F64) (hs : s.isFinite = true)
    (hneg : s.neg = false) (hx : (inflate fused s).isFinite = true) :
    |(inflate fused s).toRat - 11 / 10 * s.toRat| ≤ s.toRat / 2 ^ 52 + 2 / (unitsPerOne : ℚ) := by
  have herr := inflate_error fused s hs hneg hx
  have hU : (0 : ℚ) < (unitsPerOne : ℚ) := by exact_mod_cast unitsPerOne_pos
  rw [toRat_of_nonneg s hneg, toRat_of_nonneg _ (inflate_ge fused s hs hneg hx).1]
  have e1 : ((inflate fused s).scaled : ℚ) / unitsPerOne - 11 / 10 * ((s.scaled : ℚ) / unitsPerOne)
      = (((inflate fused s).scaled : ℚ) - 11 / 10 * (s.scaled : ℚ)) / unitsPerOne := by
    field_simp
    ring
  have e2 : (s.scaled : ℚ) / unitsPerOne / 2 ^ 52 + 2 / (unitsPerOne : ℚ)
      = (2 + (s.scaled : ℚ) / 2 ^ 52) / unitsPerOne := by
    field_simp
    ring
  rw [e1, e2, abs_div, abs_of_pos hU]
  exact div_le_div_of_nonneg_right herr (le_of_lt hU)

theorem parseTemplate_ok : parseTemplate openebsNFSTemplate = .ok templateNodes := by
  have h : (parseTemplate openebsNFSTemplate).toOption.isSome = true := by decide!
  unfold templateNodes
  cases hp : parseTemplate openebsNFSTemplate with
  | ok nodes => rfl
  | error e => rw [hp] at h; simp [Except.toOption] at h

theorem separated_templateNodes : separated templateNodes = true := by decide!

theorem placeholders_templateNodes : ∀ name ∈ placeholders templateNodes,
    name ∈ ["ProvisionerStatefulName", "NFSClusterRoleName", "NFSClusterRoleBindingName",
      "NFSRoleName", "ProvisionerName", "OpenebsPVCName", "OpenebsStorageClass",
      "OpenebsStorageSize", "NFSStorageClass", "NFSPVCName", "NFSAccessMode",
      "NFSStorageSize"] := by decide!

theorem hasMarker_cons_of_not_brace (c : Char) (t : List Char) (hc : c ≠ lbrace ∧ c ≠ rbrace) :
    hasMarker (c :: t) = hasMarker t := by
  cases t with
  | nil => rfl
  | cons b rest =>
    cases rest with
    | nil => simp [hasMarker, hc.1, hc.2]
    | cons d rest' => simp [hasMarker, hc.1, hc.2]

theorem hasMarker_append_cons (c : Char) (y : List Char) (hc : c ≠ lbrace ∧ c ≠ rbrace) :
    ∀ x : List Char, hasMarker (x ++ c :: y) = (hasMarker x || hasMarker y)
  | [] => by simpa [hasMarker] using hasMarker_cons_of_not_brace c y hc
  | [a] => by
    have h := hasMarker_cons_of_not_brace c y hc
    simp [hasMarker, hc.1, hc.2, h]
  | a :: b :: x => by
    have ih := hasMarker_append_cons c y hc (b :: x)
    simp only [List.cons_append] at ih ⊢
    simp only [hasMarker, ih, Bool.or_assoc]

theorem hasMarker_of_no_brace : ∀ s : List Char, (∀ c ∈ s, c ≠ lbrace ∧ c ≠ rbrace) →
    hasMarker s = false
  | [], _ => rfl
  | c :: s, h => by
    rw [hasMarker_cons_of_not_brace c s (h c (List.mem_cons_self _ _))]
    exact hasMarker_of_no_brace s (fun d hd => h d (List.mem_cons_of_mem _ hd))

theorem hasMarker_append_no_brace_left (s t : List Char) (h : ∀ c ∈ s, c ≠ lbrace ∧ c ≠ rbrace) :
    hasMarker (s ++ t) = hasMarker t := by
  induction s with
  | nil => rfl
  | cons c s ih =>
    rw [List.cons_append, hasMarker_cons_of_not_brace c _ (h c (List.mem_cons_self _ _))]
    exact ih (fun d hd => h d (List.mem_cons_of_mem _ hd))

theorem hasMarker_append_no_brace_right (s t : List Char) (h : ∀ c ∈ t, c ≠ lbrace ∧ c ≠ rbrace) :
    hasMarker (s ++ t) = hasMarker s := by
  cases t with
  | nil => simp
  | cons c t =>
    rw [hasMarker_append_cons c t (h c (List.mem_cons_self _ _)),
      hasMarker_of_no_brace t (fun d hd => h d (List.mem_cons_of_mem _ hd)), Bool.or_false]

theorem htmlEscapeChar_cases (c : Char) :
    htmlEscapeChar c = [c] ∨
    (c ≠ lbrace ∧ c ≠ rbrace ∧ ∃ d t, htmlEscapeChar c = d :: t ∧
      ∀ e ∈ d :: t, e ≠ lbrace ∧ e ≠ rbrace) := by
  unfold htmlEscapeChar
  split_ifs with h0 h1 h2 h3 h4 h5 h6
  · right; subst h0; exact ⟨by decide, by decide, _, _, rfl, by decide⟩
  · right; subst h1; exact ⟨by decide, by decide, _, _, rfl, by decide⟩
  · right; subst h2; exact ⟨by decide, by decide, _, _, rfl, by decide⟩
  · right; subst h3; exact ⟨by decide, by decide, _, _, rfl, by decide⟩
  · right; subst h4; exact ⟨by decide, by decide, _, _, rfl, by decide⟩
  · right; subst h5; exact ⟨by decide, by decide, _, _, rfl, by decide⟩
  · right; subst h6; exact ⟨by decide, by decide, _, _, rfl, by decide⟩
  · left; rfl

/-- Escaping neither creates nor removes a marker, also after any one
character. -/
theorem hasMarker_cons_htmlEscape : ∀ (v : List Char) (a : Char),
    hasMarker (a :: htmlEscape v) = hasMarker (a :: v)
  | [], _ => rfl
  | b :: rest, a => by
    have ih := hasMarker_cons_htmlEscape rest
    rcases htmlEscapeChar_cases b with hb | ⟨hb1, hb2, d, t, hdt, hfree⟩
    · simp only [htmlEscape, hb, List.singleton_append, hasMarker, ih b]
    · have hE : htmlEscape (b :: rest) = (d :: t) ++ htmlEscape rest := by
        simp only [htmlEscape, hdt]
      have h1 : hasMarker (a :: b :: rest) = hasMarker rest := by
        simp only [hasMarker, hb1, hb2, and_false, or_self, decide_False, Bool.false_or]
        exact hasMarker_cons_of_not_brace b rest ⟨hb1, hb2⟩
      have h2 : hasMarker (htmlEscape rest) = hasMarker rest := by
        have := ih b
        rw [hasMarker_cons_of_not_brace b _ ⟨hb1, hb2⟩,
          hasMarker_cons_of_not_brace b _ ⟨hb1, hb2⟩] at this
        exact this
      have hd := hfree d (List.mem_cons_self _ _)
      have h3 : hasMarker (a :: ((d :: t) ++ htmlEscape rest)) = hasMarker (htmlEscape rest) := by
        simp only [List.cons_append, hasMarker, hd.1, hd.2, and_false, or_self, decide_False,
          Bool.false_or]
        have := hasMarker_append_no_brace_left (d :: t) (htmlEscape rest) hfree
        simpa using this
      rw [hE, h3, h2, h1]

theorem hasMarker_htmlEscape (v : List Char) : hasMarker (htmlEscape v) = hasMarker v := by
  have h := hasMarker_cons_htmlEscape v (Char.ofNat 32)
  rwa [hasMarker_cons_of_not_brace _ _ (by decide), hasMarker_cons_of_not_brace _ _ (by decide)] at h

/-- Executing a separated template whose placeholders all name string fields
with marker-free values succeeds, and the output has no marker; it starts
with a character that is no brace when the template starts with text. -/
theorem execute_no_marker (r : openebsNFS) : ∀ nodes : List Node, separated nodes = true →
    (∀ name ∈ placeholders nodes, ∃ v, r.lookup name = some (FieldValue.str v) ∧
      hasMarker v.data = false) →
    ∃ out, execute r nodes = .ok out ∧ hasMarker out = false ∧
      (∀ s rest, nodes = Node.text s :: rest → ∃ c t, out = c :: t ∧ c ≠ lbrace ∧ c ≠ rbrace)
  | [], _, _ => ⟨[], rfl, rfl, by intro s rest h; cases h⟩
  | Node.text s :: nodes, hsep, hval => by
    simp only [separated, Bool.and_eq_true, Bool.not_eq_true', List.all_eq_true,
      decide_eq_true_eq, ne_eq, decide_not] at hsep
    obtain ⟨⟨hne, hfree⟩, hrest⟩ := hsep
    obtain ⟨out, hout, hm, _⟩ := execute_no_marker r nodes hrest
      (fun name hn => hval name (by simpa [placeholders] using hn))
    have hfree' : ∀ c ∈ s, c ≠ lbrace ∧ c ≠ rbrace := by
      intro c hc
      have := hfree c hc
      simpa using this
    refine ⟨s ++ out, by simp only [execute, hout], ?_, ?_⟩
    · rw [hasMarker_append_no_brace_left s out hfree']; exact hm
    · intro s' rest' h
      cases s with
      | nil => simp at hne
      | cons c t => exact ⟨c, t ++ out, rfl, hfree' c (List.mem_cons_self _ _)⟩
  | [Node.field name], _, hval => by
    obtain ⟨v, hv, hm⟩ := hval name (by simp [placeholders])
    refine ⟨htmlEscape v.data ++ [], by simp only [execute, hv], ?_, by intro s rest h; cases h⟩
    rw [List.append_nil, hasMarker_htmlEscape]; exact hm
  | Node.field _ :: Node.field _ :: _, hsep, _ => by simp [separated] at hsep
  | Node.field name :: Node.text s :: nodes, hsep, hval => by
    have hsep' : separated (Node.text s :: nodes) = true := by simpa [separated] using hsep
    obtain ⟨v, hv, hm⟩ := hval name (by simp [placeholders])
    obtain ⟨out, hout, hmo, hhead⟩ := execute_no_marker r (Node.text s :: nodes) hsep'
      (fun n hn => hval n (by simp only [placeholders, List.mem_cons] at hn ⊢; exact Or.inr hn))
    obtain ⟨c, t, hct, hc⟩ := hhead s nodes rfl
    refine ⟨htmlEscape v.data ++ out, by rw [execute, hv]; simp only [hout], ?_,
      by intro s' rest' h; cases h⟩
    rw [hct, hasMarker_append_cons c t hc, hasMarker_htmlEscape, hm, Bool.false_or]
    rw [hct, hasMarker_cons_of_not_brace c t hc] at hmo
    exact hmo

theorem digitChar_no_brace : ∀ d : Nat, d < 10 → digitChar d ≠ lbrace ∧ digitChar d ≠ rbrace := by
  decide

theorem decimalAux_no_brace : ∀ (fuel n : Nat), ∀ c ∈ decimalAux fuel n, c ≠ lbrace ∧ c ≠ rbrace
  | 0, _ => by simp [decimalAux]
  | fuel + 1, n => by
    intro c hc
    unfold decimalAux at hc
    split at hc
    · rename_i h10
      simp only [List.mem_singleton] at hc
      rw [hc]; exact digitChar_no_brace n h10
    · simp only [List.mem_append, List.mem_singleton] at hc
      rcases hc with hc | hc
      · exact decimalAux_no_brace fuel (n / 10) c hc
      · rw [hc]; exact digitChar_no_brace _ (Nat.mod_lt _ (by norm_num))

theorem sprintf2f_no_brace (x : F64) : ∀ c ∈ (sprintf2f x).data, c ≠ lbrace ∧ c ≠ rbrace := by
  unfold sprintf2f
  by_cases h1 : x.isNaN = true
  · rw [if_pos h1]; decide
  · rw [if_neg h1]
    by_cases h2 : x.isInf = true
    · rw [if_pos h2]
      cases x.neg <;> decide
    · rw [if_neg h2]
      intro c hc
      simp only [List.mem_append, List.mem_cons, List.mem_singleton, List.not_mem_nil,
        or_false] at hc
      rcases hc with (hc | hc) | hc
      · have hminus : c = Char.ofNat 45 := by
          split at hc
          · simpa using hc
          · simp at hc
        rw [hminus]; decide
      · exact decimalAux_no_brace _ _ c hc
      · rcases hc with hc | hc | hc
        · rw [hc]; decide
        · rw [hc]; exact digitChar_no_brace _ (Nat.mod_lt _ (by norm_num))
        · rw [hc]; exact digitChar_no_brace _ (Nat.mod_lt _ (by norm_num))

theorem hasMarker_append_const (a s : String) (hs : ∀ c ∈ s.data, c ≠ lbrace ∧ c ≠ rbrace) :
    hasMarker (a ++ s).data = hasMarker a.data := by
  rw [String.data_append, hasMarker_append_no_brace_right _ _ hs]

theorem hasMarker_size (x : F64) : hasMarker (sprintf2f x ++ "G").data = false := by
  apply hasMarker_of_no_brace
  intro c hc
  rw [String.data_append, List.mem_append] at hc
  rcases hc with hc | hc
  · exact sprintf2f_no_brace x c hc
  · have : c = 'G' := by simpa using hc
    rw [this]; decide

/-- In the derived record every field the template names is a string without
a marker, when the application name and the storage class have none. -/
theorem derived_values_no_marker (fused : Bool) (app : String) (size : F64) (sc : String)
    (happ : hasMarker app.data = false) (hsc : hasMarker sc.data = false) :
    ∀ name ∈ placeholders templateNodes,
      ∃ v, (deriveRecord fused (flagValues app size sc)).lookup name = some (FieldValue.str v) ∧
        hasMarker v.data = false := by
  intro name hname
  have hmem := placeholders_templateNodes name hname
  simp only [List.mem_cons, List.mem_singleton, List.not_mem_nil, or_false] at hmem
  rcases hmem with h | h | h | h | h | h | h | h | h | h | h | h <;> subst h <;>
    refine ⟨_, by simp [openebsNFS.lookup]; rfl, ?_⟩ <;>
    simp only [deriveRecord, flagValues]
  all_goals first
    | (rw [hasMarker_append_const _ _ (by decide), hasMarker_append_const _ _ (by decide)]
       exact happ)
    | (rw [hasMarker_append_const _ _ (by decide)]
       exact happ)
    | exact hsc
    | exact hasMarker_size _
    | decide

theorem lookup_of_placeholder : ∀ name ∈ placeholders templateNodes, ∀ r : openebsNFS,
    ∃ v, r.lookup name = some (FieldValue.str v) := by
  intro name hname r
  have hmem := placeholders_templateNodes name hname
  simp only [List.mem_cons, List.mem_singleton, List.not_mem_nil, or_false] at hmem
  rcases hmem with h | h | h | h | h | h | h | h | h | h | h | h <;> subst h <;>
    exact ⟨_, by simp [openebsNFS.lookup]; rfl⟩

theorem generateTemplate_eq (r : openebsNFS) (out : List Char)
    (h : execute r templateNodes = .ok out) :
    generateTemplate r = .ok ⟨r.ApplicationName ++ "-nfs.yaml", String.mk out⟩ := by
  unfold generateTemplate
  rw [parseTemplate_ok]
  simp only [h]

theorem renderedText_eq (fused : Bool) (app : String) (size : F64) (sc : String) (out : List Char)
    (h : execute (deriveRecord fused (flagValues app size sc)) templateNodes = .ok out) :
    renderedText fused app size sc = some (String.mk out) := by
  unfold renderedText Run
  simp only [generateTemplate_eq _ out h]

/-- Executing a template succeeds when each of its placeholders names a
string field of the record. -/
theorem execute_ok (r : openebsNFS) : ∀ nodes : List Node,
    (∀ name ∈ placeholders nodes, ∃ v, r.lookup name = some (FieldValue.str v)) →
    ∃ out, execute r nodes = .ok out
  | [], _ => ⟨[], rfl⟩
  | Node.text s :: nodes, h => by
    obtain ⟨out, hout⟩ := execute_ok r nodes (fun name hn => h name (by simpa [placeholders] using hn))
    exact ⟨s ++ out, by rw [execute]; simp only [hout]⟩
  | Node.field name :: nodes, h => by
    obtain ⟨v, hv⟩ := h name (by simp [placeholders])
    obtain ⟨out, hout⟩ := execute_ok r nodes
      (fun n hn => h n (by simp only [placeholders, List.mem_cons]; exact Or.inr hn))
    exact ⟨htmlEscape v.data ++ out, by rw [execute, hv]; simp only [hout]⟩

/-- Rendering succeeds for every record. -/
theorem generateTemplate_ok (r : openebsNFS) : ∃ file, generateTemplate r = .ok file := by
  obtain ⟨out, hout⟩ := execute_ok r templateNodes (fun name hn => lookup_of_placeholder name hn r)
  exact ⟨_, generateTemplate_eq r out hout⟩

theorem append_right_cancel {a b s : String} (h : a ++ s = b ++ s) : a = b := by
  have h2 := congrArg String.data h
  simp only [String.data_append] at h2
  exact String.ext (List.append_cancel_right h2)

theorem append_ne_hyphen_append (app s : String) : app ++ s ≠ app ++ "-" ++ s := by
  intro h
  have h2 := congrArg String.length h
  simp only [String.length_append] at h2
  have : ("-" : String).length = 1 := rfl
  omega

theorem separators_eq (fused : Bool) (app : String) (size : F64) (sc : String) :
    separators app (Run fused (flagValues app size sc)).1 =
      [some "-", some "-", some "-", some "-", some "", some "", some "-", some "-"] := by
  simp [separators, derivedNames, defaultSuffixes, separatorOf, Run, deriveRecord, flagValues,
    append_ne_hyphen_append]

theorem htmlEscape_eq_self : ∀ v : List Char, (∀ c ∈ v, htmlEscapeChar c = [c]) → htmlEscape v = v
  | [], _ => rfl
  | c :: v, h => by
    rw [htmlEscape, h c (List.mem_cons_self _ _),
      htmlEscape_eq_self v (fun d hd => h d (List.mem_cons_of_mem _ hd))]
    rfl

/-- When no field value a template names holds a character that
`html/template` escapes, executing the template is literal substitution. -/
theorem execute_eq_substituteLiteral (r : openebsNFS) : ∀ nodes : List Node,
    (∀ name ∈ placeholders nodes, ∀ v, r.lookup name = some (FieldValue.str v) →
      ∀ c ∈ v.data, htmlEscapeChar c = [c]) →
    execute r nodes = substituteLiteral r nodes
  | [], _ => rfl
  | Node.text s :: nodes, h => by
    rw [execute, substituteLiteral, execute_eq_substituteLiteral r nodes
      (fun name hn => h name (by simpa [placeholders] using hn))]
  | Node.field name :: nodes, h => by
    rw [execute, substituteLiteral, execute_eq_substituteLiteral r nodes
      (fun n hn => h n (by simp only [placeholders, List.mem_cons]; exact Or.inr hn))]
    cases hl : r.lookup name with
    | none => rfl
    | some fv =>
      cases fv with
      | num x => rfl
      | str v =>
        simp only []
        rw [htmlEscape_eq_self v.data (h name (by simp [placeholders]) v hl)]

theorem deriveRecord_congr (fused : Bool) (g₁ g₂ : openebsNFS)
    (happ : g₁.ApplicationName = g₂.ApplicationName) (hsize : g₁.StorageSize = g₂.StorageSize)
    (hsc : g₁.OpenebsStorageClass = g₂.OpenebsStorageClass) :
    deriveRecord fused g₁ = deriveRecord fused g₂ := by
  unfold deriveRecord
  rw [happ, hsize, hsc]

theorem run_snd (fused : Bool) (g : openebsNFS) :
    (Run fused g).2 = generateTemplate (deriveRecord fused g) := by
  unfold Run
  simp only

theorem run_path (fused : Bool) (app : String) (size : F64) (sc : String) :
    ∃ file, (Run fused (flagValues app size sc)).2 = .ok file ∧ file.path = app ++ "-nfs.yaml" := by
  obtain ⟨out, hout⟩ := execute_ok (deriveRecord fused (flagValues app size sc)) templateNodes
    (fun name hn => lookup_of_placeholder name hn _)
  have h := generateTemplate_eq _ out hout
  rw [run_snd, h]
  exact ⟨_, rfl, rfl⟩

theorem run_congr (fused : Bool) (g₁ g₂ : openebsNFS)
    (h : deriveRecord fused g₁ = deriveRecord fused g₂) : Run fused g₁ = Run fused g₂ := by
  unfold Run
  rw [h]

/-- The two evaluations of `s + 0.1*s` the Go specification allows can write
different hundredths: for the size `0.15` the separately rounded sum is
written `0.16` and the fused one `0.17`. -/
theorem fused_and_unfused_differ :
    sprintf2f (inflate false (F64.ofRatio false 15 100)) = "0.16" ∧
    sprintf2f (inflate true (F64.ofRatio false 15 100)) = "0.17" := by
  decide!

/-- Appending a suffix of label characters that ends with a letter or digit
to a label gives text of label characters that starts and ends with a
letter or digit. -/
theorem label_append (a s : String) (ha : isDNS1123Label a = true)
    (hs : s.data.all isLabelChar = true)
    (hlast : (s.data.getLast?.map isLowerAlnum).getD false = true) :
    (a ++ s).data.all isLabelChar = true ∧ startsAndEndsAlnum (a ++ s).data = true := by
  simp only [isDNS1123Label, Bool.and_eq_true, Bool.not_eq_true', startsAndEndsAlnum] at ha
  obtain ⟨⟨hne, hall⟩, hhead, _⟩ := ha
  rw [String.data_append]
  constructor
  · rw [List.all_append, hall, hs]; rfl
  · cases hd : a.data with
    | nil => rw [hd] at hne; simp at hne
    | cons c cs =>
      rw [hd] at hhead
      cases hsd : s.data with
      | nil => rw [hsd] at hlast; simp at hlast
      | cons d ds =>
        rw [hsd] at hlast
        simp only [startsAndEndsAlnum, List.cons_append, List.head?_cons, Option.map_some',
          Option.getD_some, Bool.and_eq_true]
        simp only [List.head?_cons, Option.map_some', Option.getD_some] at hhead
        refine ⟨hhead, ?_⟩
        have : (c :: (cs ++ d :: ds)).getLast? = (d :: ds).getLast? := by
          rw [← List.cons_append, List.getLast?_append_cons]
        rw [this]
        exact hlast

/-- The UTF-8 length of a concatenation (Go `len` of `a + b`). -/
theorem utf8ByteSize_append (a b : String) :
    (a ++ b).utf8ByteSize = a.utf8ByteSize + b.utf8ByteSize := by
  cases a with | mk x =>
  cases b with | mk y =>
  have h : (String.mk x ++ String.mk y) = String.mk (x ++ y) := rfl
  rw [h, String.utf8ByteSize_mk, String.utf8ByteSize_mk, String.utf8ByteSize_mk,
    String.utf8Len_append]

theorem splitOn_ne_nil {α : Type} [DecidableEq α] (sep : α) : ∀ l : List α, splitOn sep l ≠ []
  | [] => by simp [splitOn]
  | c :: cs => by
    unfold splitOn
    split
    · simp
    · split <;> simp

theorem splitOn_cons_sep {α : Type} [DecidableEq α] (sep : α) (cs : List α) :
    splitOn sep (sep :: cs) = [] :: splitOn sep cs := by
  rw [splitOn, if_pos rfl]

theorem splitOn_cons_ne {α : Type} [DecidableEq α] (sep c : α) (cs : List α) (x : List α)
    (xs : List (List α)) (hc : c ≠ sep) (h : splitOn sep cs = x :: xs) :
    splitOn sep (c :: cs) = (c :: x) :: xs := by
  rw [splitOn, if_neg hc, h]

theorem splitOn_append_of_not_mem {α : Type} [DecidableEq α] (sep : α) (x : List α)
    (xs : List (List α)) (rest : List α) (h : splitOn sep rest = x :: xs) :
    ∀ v : List α, sep ∉ v → splitOn sep (v ++ rest) = (v ++ x) :: xs
  | [], _ => by simpa using h
  | c :: cs, hv => by
    have hc : c ≠ sep := fun e => hv (by simp [e])
    have ih := splitOn_append_of_not_mem sep x xs rest h cs (fun e => hv (by simp [e]))
    rw [List.cons_append, splitOn_cons_ne sep c _ _ _ hc ih, List.cons_append]

theorem renderItems_append (r : openebsNFS) : ∀ a b : List (Char ⊕ String),
    renderItems r (a ++ b) = renderItems r a ++ renderItems r b
  | [], b => rfl
  | i :: a, b => by
    rw [List.cons_append, renderItems, renderItems, renderItems_append r a b, List.append_assoc]

theorem renderItems_text (r : openebsNFS) : ∀ s : List Char, renderItems r (s.map Sum.inl) = s
  | [] => rfl
  | c :: s => by
    rw [List.map_cons, renderItems, renderItems_text r s]
    rfl

/-- Executing a template writes its items one after the other. -/
theorem execute_eq_renderItems (r : openebsNFS) : ∀ (nodes : List Node) (out : List Char),
    execute r nodes = .ok out → out = renderItems r (items nodes)
  | [], out, h => by
    simp only [execute, Except.ok.injEq] at h
    rw [← h]; rfl
  | Node.text s :: nodes, out, h => by
    rw [execute] at h
    cases hrest : execute r nodes with
    | error e => rw [hrest] at h; simp at h
    | ok rest =>
      rw [hrest] at h
      simp only [Except.ok.injEq] at h
      rw [← h, items, renderItems_append, renderItems_text,
        ← execute_eq_renderItems r nodes rest hrest]
  | Node.field name :: nodes, out, h => by
    rw [execute] at h
    cases hv : r.lookup name with
    | none => rw [hv] at h; simp at h
    | some fv =>
      cases fv with
      | num x => rw [hv] at h; simp at h
      | str v =>
        rw [hv] at h
        cases hrest : execute r nodes with
        | error e => rw [hrest] at h; simp at h
        | ok rest =>
          rw [hrest] at h
          simp only [Except.ok.injEq] at h
          rw [← h, items, renderItems, renderItem, hv,
            ← execute_eq_renderItems r nodes rest hrest]

/-- Line `k` of the rendered items is the rendering of line `k` of the
items, when no value written on the lines up to `k` holds a line break. -/
theorem lineAt_renderItems (r : openebsNFS) : ∀ (l : List (Char ⊕ String)) (k : Nat),
    (∀ line ∈ (splitOn (Sum.inl (Char.ofNat 10)) l).take (k + 1), ∀ name, Sum.inr name ∈ line →
      Char.ofNat 10 ∉ renderItem r (Sum.inr name)) →
    lineAt (renderItems r l) k =
      ((splitOn (Sum.inl (Char.ofNat 10)) l)[k]?).map (renderItems r)
  | [], k, _ => by
    cases k <;> simp [lineAt, splitOn, renderItems]
  | Sum.inl c :: l, k, h => by
    have hr : renderItems r (Sum.inl c :: l) = c :: renderItems r l := rfl
    by_cases hc : c = Char.ofNat 10
    · rw [hr, hc, lineAt, splitOn_cons_sep, splitOn_cons_sep]
      cases k with
      | zero => simp [renderItems]
      | succ k =>
        have ih := lineAt_renderItems r l k (fun line hl name hn => h line (by
          rw [hc, splitOn_cons_sep, List.take_succ_cons]
          exact List.mem_cons_of_mem _ hl) name hn)
        simpa [lineAt] using ih
    · obtain ⟨x, xs, hx⟩ := List.exists_cons_of_ne_nil
        (splitOn_ne_nil (Sum.inl (Char.ofNat 10)) l)
      obtain ⟨y, ys, hy⟩ := List.exists_cons_of_ne_nil
        (splitOn_ne_nil (Char.ofNat 10) (renderItems r l))
      have hc2 : (Sum.inl c : Char ⊕ String) ≠ Sum.inl (Char.ofNat 10) := by
        intro e; exact hc (Sum.inl.inj e)
      have hs := splitOn_cons_ne _ _ l x xs hc2 hx
      have ih := lineAt_renderItems r l k (fun line hl name hn => by
        rw [hx, List.take_succ_cons, List.mem_cons] at hl
        rcases hl with hl | hl
        · exact h (Sum.inl c :: x) (by rw [hs, List.take_succ_cons]; exact List.mem_cons_self _ _)
            name (List.mem_cons_of_mem _ (hl ▸ hn))
        · exact h line (by rw [hs, List.take_succ_cons]; exact List.mem_cons_of_mem _ hl) name hn)
      rw [lineAt, hy, hx] at ih
      rw [hr, lineAt, splitOn_cons_ne _ _ _ y ys hc hy, hs]
      cases k with
      | zero =>
        have e : y = renderItems r x := by simpa using ih
        rw [e, List.getElem?_cons_zero, List.getElem?_cons_zero]; rfl
      | succ k => simpa using ih
  | Sum.inr name :: l, k, h => by
    have hr : renderItems r (Sum.inr name :: l) = renderItem r (Sum.inr name) ++ renderItems r l :=
      rfl
    obtain ⟨x, xs, hx⟩ := List.exists_cons_of_ne_nil
      (splitOn_ne_nil (Sum.inl (Char.ofNat 10)) l)
    obtain ⟨y, ys, hy⟩ := List.exists_cons_of_ne_nil
      (splitOn_ne_nil (Char.ofNat 10) (renderItems r l))
    have hc2 : (Sum.inr name : Char ⊕ String) ≠ Sum.inl (Char.ofNat 10) := by
      intro e; cases e
    have hs := splitOn_cons_ne _ _ l x xs hc2 hx
    have hv : Char.ofNat 10 ∉ renderItem r (Sum.inr name) :=
      h (Sum.inr name :: x) (by rw [hs, List.take_succ_cons]; exact List.mem_cons_self _ _)
        name (List.mem_cons_self _ _)
    have ih := lineAt_renderItems r l k (fun line hl name2 hn => by
      rw [hx, List.take_succ_cons, List.mem_cons] at hl
      rcases hl with hl | hl
      · exact h (Sum.inr name :: x) (by rw [hs, List.take_succ_cons]; exact List.mem_cons_self _ _)
          name2 (List.mem_cons_of_mem _ (hl ▸ hn))
      · exact h line (by rw [hs, List.take_succ_cons]; exact List.mem_cons_of_mem _ hl) name2 hn)
    rw [lineAt, hy, hx] at ih
    rw [hr, lineAt, splitOn_append_of_not_mem _ y ys _ hy _ hv, hs]
    cases k with
    | zero =>
      have e : y = renderItems r x := by simpa using ih
      rw [e, List.getElem?_cons_zero, List.getElem?_cons_zero]; rfl
    | succ k => simpa using ih

theorem nameChar_cases (c : Char) (h : isNameChar c = true) :
    (97 ≤ c.toNat ∧ c.toNat ≤ 122) ∨ (45 ≤ c.toNat ∧ c.toNat ≤ 57) := by
  simp only [isNameChar, isLabelChar, isLowerAlnum, Char.isLower, Char.isDigit, Bool.or_eq_true,
    Bool.and_eq_true, decide_eq_true_eq, UInt32.le_def, Fin.le_def] at h
  rcases h with ((h | h) | h) | h
  · rcases h with ⟨h1, h2⟩ | ⟨h1, h2⟩
    · exact Or.inl ⟨h1, h2⟩
    · refine Or.inr ⟨?_, h2⟩
      have : (48 : Nat) ≤ c.toNat := h1
      omega
  · rw [h]; decide
  · rw [h]; decide
  · rw [h]; decide

theorem htmlEscapeChar_name (c : Char) (h : isNameChar c = true) : htmlEscapeChar c = [c] := by
  unfold htmlEscapeChar
  rw [if_neg (fun e => by rw [e] at h; revert h; decide),
    if_neg (fun e => by rw [e] at h; revert h; decide),
    if_neg (fun e => by rw [e] at h; revert h; decide),
    if_neg (fun e => by rw [e] at h; revert h; decide),
    if_neg (fun e => by rw [e] at h; revert h; decide),
    if_neg (fun e => by rw [e] at h; revert h; decide),
    if_neg (fun e => by rw [e] at h; revert h; decide)]

theorem htmlEscape_name (v : List Char) (h : ∀ c ∈ v, isNameChar c = true) : htmlEscape v = v :=
  htmlEscape_eq_self v (fun c hc => htmlEscapeChar_name c (h c hc))

theorem htmlEscape_no_newline : ∀ v : List Char, Char.ofNat 10 ∉ v →
    Char.ofNat 10 ∉ htmlEscape v
  | [], _ => by simp [htmlEscape]
  | c :: cs, h => by
    have hc : c ≠ Char.ofNat 10 := fun e => h (by simp [e])
    have ih := htmlEscape_no_newline cs (fun e => h (List.mem_cons_of_mem _ e))
    rw [htmlEscape, List.mem_append]
    rintro (hm | hm)
    · unfold htmlEscapeChar at hm
      split_ifs at hm
      all_goals first
        | (revert hm; decide)
        | (simp only [List.mem_singleton] at hm; exact hc hm.symm)
    · exact ih hm

theorem dropBlanks_of_not_blank (c : Char) (cs : List Char) (h : isBlank c = false) :
    dropBlanks (c :: cs) = c :: cs := by
  simp [dropBlanks, h]

theorem trimBlanks_of_no_blank (l : List Char) (h : ∀ c ∈ l, isBlank c = false) :
    trimBlanks l = l := by
  unfold trimBlanks
  cases hr : l.reverse with
  | nil => simp [dropBlanks, List.reverse_eq_nil_iff.mp hr]
  | cons c cs =>
    have hc : isBlank c = false := h c (by
      rw [← List.mem_reverse, hr]; exact List.mem_cons_self _ _)
    rw [dropBlanks_of_not_blank c cs hc, ← hr, List.reverse_reverse]

theorem cutComment_of_no_hash : ∀ l : List Char, (∀ c ∈ l, c ≠ Char.ofNat 35) →
    cutComment l = l
  | [], _ => rfl
  | [_], _ => rfl
  | a :: b :: rest, h => by
    have hb : b ≠ Char.ofNat 35 := h b (by simp)
    have ih := cutComment_of_no_hash (b :: rest) (fun c hc => h c (List.mem_cons_of_mem _ hc))
    rw [cutComment, ih]
    simp [hb]

theorem hasKeyColon_of_no_colon : ∀ l : List Char, (∀ c ∈ l, c ≠ Char.ofNat 58) →
    hasKeyColon l = false
  | [], _ => rfl
  | [c], h => by simp [hasKeyColon, h c (by simp)]
  | a :: b :: rest, h => by
    have ha : a ≠ Char.ofNat 58 := h a (by simp)
    have ih := hasKeyColon_of_no_colon (b :: rest) (fun c hc => h c (List.mem_cons_of_mem _ hc))
    rw [hasKeyColon, ih]
    simp [ha]

theorem isIndicator_name (c : Char) (h : isNameChar c = true) : isIndicator c = false := by
  have hc := nameChar_cases c h
  unfold isIndicator
  rw [Bool.eq_false_iff]
  intro hm
  simp only [List.contains_eq_any_beq, List.any_cons, List.any_nil, Bool.or_false,
    Bool.or_eq_true, beq_iff_eq] at hm
  omega

theorem lowerAlnum_is_name (c : Char) (h : isLowerAlnum c = true) : isNameChar c = true := by
  simp [isNameChar, isLabelChar, h]

/-- A text of name characters that starts with a letter or digit is read as
the plain scalar it is. -/
theorem scalarValue_name (c : Char) (cs : List Char) (hc : isLowerAlnum c = true)
    (h : ∀ d ∈ c :: cs, isNameChar d = true) : scalarValue (c :: cs) = some (c :: cs) := by
  have hblank : ∀ d ∈ c :: cs, isBlank d = false := fun d hd => by
    have hn := h d hd
    unfold isBlank
    rw [Bool.or_eq_false_iff]
    constructor <;> · rw [decide_eq_false_iff_not]; intro e; rw [e] at hn; revert hn; decide
  have hhash : ∀ d ∈ c :: cs, d ≠ Char.ofNat 35 := fun d hd e => by
    have hn := h d hd; rw [e] at hn; revert hn; decide
  have hcolon : ∀ d ∈ c :: cs, d ≠ Char.ofNat 58 := fun d hd e => by
    have hn := h d hd; rw [e] at hn; revert hn; decide
  have hq : c ≠ Char.ofNat 34 := fun e => by rw [e] at hc; revert hc; decide
  have hstart : startsPlain (c :: cs) = true := by
    have hi := isIndicator_name c (lowerAlnum_is_name c hc)
    have h1 : c ≠ Char.ofNat 45 := fun e => by rw [e] at hc; revert hc; decide
    have h2 : c ≠ Char.ofNat 63 := fun e => by rw [e] at hc; revert hc; decide
    have h3 : c ≠ Char.ofNat 58 := fun e => by rw [e] at hc; revert hc; decide
    cases cs <;> simp [startsPlain, hi, h1, h2, h3]
  unfold scalarValue
  rw [dropBlanks_of_not_blank c cs (hblank c (List.mem_cons_self _ _))]
  simp only [hq, if_false]
  unfold plainScalar
  rw [cutComment_of_no_hash _ hhash, trimBlanks_of_no_blank _ hblank, hstart,
    hasKeyColon_of_no_colon _ hcolon]
  rfl

theorem afterLeading_append (key rest : List Char) :
    afterLeading key (key ++ rest) = some rest := by
  unfold afterLeading
  rw [if_pos (List.isPrefixOf_iff_prefix.mpr (List.prefix_append key rest)), List.drop_left]

theorem label_name_chars (app : String) (h : isDNS1123Label app = true) :
    (∀ c ∈ app.data, isNameChar c = true) ∧
    ∃ c cs, app.data = c :: cs ∧ isLowerAlnum c = true := by
  simp only [isDNS1123Label, Bool.and_eq_true, List.all_eq_true, startsAndEndsAlnum] at h
  obtain ⟨⟨_, hall⟩, hfirst, _⟩ := h
  refine ⟨fun c hc => by simp [isNameChar, hall c hc], ?_⟩
  cases hd : app.data with
  | nil => rw [hd] at hfirst; simp at hfirst
  | cons c cs =>
    rw [hd] at hfirst
    exact ⟨c, cs, rfl, by simpa using hfirst⟩

theorem nameChar_ne_newline (c : Char) (h : isNameChar c = true) : c ≠ Char.ofNat 10 := by
  intro e; rw [e] at h; revert h; decide

theorem append_no_newline (a s : String) (ha : Char.ofNat 10 ∉ a.data)
    (hs : Char.ofNat 10 ∉ s.data) : Char.ofNat 10 ∉ (a ++ s).data := by
  rw [String.data_append, List.mem_append]
  rintro (h | h)
  · exact ha h
  · exact hs h

theorem renderItem_str (r : openebsNFS) (name v : String)
    (h : r.lookup name = some (FieldValue.str v)) :
    renderItem r (Sum.inr name) = htmlEscape v.data := by
  simp only [renderItem, h]

/-- The six resource names of the derived record hold no line break when the
application name holds none. -/
theorem names_no_newline (fused : Bool) (app : String) (size : F64) (sc : String)
    (happ : Char.ofNat 10 ∉ app.data) :
    ∀ name ∈ ["ProvisionerStatefulName", "NFSClusterRoleName", "NFSClusterRoleBindingName",
        "NFSRoleName", "ProvisionerName", "OpenebsPVCName"],
      ∃ v, (deriveRecord fused (flagValues app size sc)).lookup name = some (FieldValue.str v) ∧
        Char.ofNat 10 ∉ v.data := by
  intro name hname
  simp only [List.mem_cons, List.mem_singleton, List.not_mem_nil, or_false] at hname
  rcases hname with h | h | h | h | h | h <;> subst h <;>
    refine ⟨_, by simp [openebsNFS.lookup]; rfl, ?_⟩ <;>
    simp only [deriveRecord, flagValues]
  all_goals first
    | exact append_no_newline _ _ (append_no_newline _ _ happ (by decide)) (by decide)
    | exact append_no_newline _ _ happ (by decide)

/-- The placeholders on the lines of the template before the backing claim
name the six resource names only. -/
theorem early_fields :
    ((itemLines templateNodes).take 178).all (fun line => line.all (fun i =>
      match i with
      | Sum.inl _ => true
      | Sum.inr name => decide (name ∈ ["ProvisionerStatefulName", "NFSClusterRoleName",
          "NFSClusterRoleBindingName", "NFSRoleName", "ProvisionerName", "OpenebsPVCName"]))) =
      true := by
  decide!

/-- On the lines of the manifest before the backing claim no value holds a
line break, when the application name holds none. -/
theorem early_lines_no_newline (fused : Bool) (app : String) (size : F64) (sc : String)
    (happ : Char.ofNat 10 ∉ app.data) (k : Nat) (hk : k < 178) :
    ∀ line ∈ (itemLines templateNodes).take (k + 1), ∀ name, Sum.inr name ∈ line →
      Char.ofNat 10 ∉ renderItem (deriveRecord fused (flagValues app size sc)) (Sum.inr name) := by
  intro line hl name hn
  have hl2 : line ∈ (itemLines templateNodes).take 178 := by
    have e : (itemLines templateNodes).take (k + 1) =
        ((itemLines templateNodes).take 178).take (k + 1) := by
      rw [List.take_take, Nat.min_eq_left (by omega)]
    rw [e] at hl
    exact List.mem_of_mem_take hl
  have h := early_fields
  rw [List.all_eq_true] at h
  have h2 := h line hl2
  rw [List.all_eq_true] at h2
  have h3 := h2 (Sum.inr name) hn
  simp only [decide_eq_true_eq] at h3
  obtain ⟨v, hv, hnl⟩ := names_no_newline fused app size sc happ name h3
  rw [renderItem_str _ _ _ hv]
  exact htmlEscape_no_newline _ hnl

/-- Rendering succeeds, and the text is what executing the template writes. -/
theorem rendered_out (fused : Bool) (app : String) (size : F64) (sc : String) :
    ∃ out, renderedText fused app size sc = some (String.mk out) ∧
      out = renderItems (deriveRecord fused (flagValues app size sc)) (items templateNodes) := by
  obtain ⟨out, hout⟩ := execute_ok (deriveRecord fused (flagValues app size sc)) templateNodes
    (fun name hn => lookup_of_placeholder name hn _)
  exact ⟨out, renderedText_eq fused app size sc out hout, execute_eq_renderItems _ _ _ hout⟩

/-- Line `k` of the rendered text, from line `k` of the template. -/
theorem line_of_shape (r : openebsNFS) (k : Nat) (shape : List (Char ⊕ String))
    (hvals : ∀ line ∈ (itemLines templateNodes).take (k + 1), ∀ name, Sum.inr name ∈ line →
      Char.ofNat 10 ∉ renderItem r (Sum.inr name))
    (hshape : (itemLines templateNodes)[k]? = some shape) :
    lineAt (renderItems r (items templateNodes)) k = some (renderItems r shape) := by
  rw [lineAt_renderItems r (items templateNodes) k hvals]
  unfold itemLines at hshape
  rw [hshape]
  rfl

theorem renderItems_field (r : openebsNFS) (name v : String) (rest : List (Char ⊕ String))
    (h : r.lookup name = some (FieldValue.str v)) :
    renderItems r (Sum.inr name :: rest) = htmlEscape v.data ++ renderItems r rest := by
  rw [renderItems, renderItem_str r name v h]

/-- The derived name of a label: it starts with a letter or digit and consists
of name characters. -/
theorem derived_name_chars (app v : String) (sfx : List Char)
    (happ : isDNS1123Label app = true) (hv : v.data = app.data ++ sfx)
    (hsfx : ∀ d ∈ sfx, isNameChar d = true) :
    ∃ c cs, v.data = c :: cs ∧ isLowerAlnum c = true ∧ ∀ d ∈ c :: cs, isNameChar d = true := by
  obtain ⟨hall, c, cs, hd, hc⟩ := label_name_chars app happ
  refine ⟨c, cs ++ sfx, by rw [hv, hd]; rfl, hc, ?_⟩
  intro d hd2
  rw [← List.cons_append, ← hd, List.mem_append] at hd2
  rcases hd2 with h | h
  · exact hall d h
  · exact hsfx d h

/-- A line of the template without placeholder is a line of the manifest. -/
theorem text_line (r : openebsNFS) (text : String) (k : Nat) (s : String)
    (htext : text.data = renderItems r (items templateNodes))
    (hvals : ∀ line ∈ (itemLines templateNodes).take (k + 1), ∀ name, Sum.inr name ∈ line →
      Char.ofNat 10 ∉ renderItem r (Sum.inr name))
    (hshape : (itemLines templateNodes)[k]? = some (s.data.map Sum.inl)) :
    lineAt text.data k = some s.data := by
  rw [htext, line_of_shape r k _ hvals hshape, renderItems_text]

/-- The scalar read on a line `key: <name>` of the manifest is the name. -/
theorem plain_name_line (r : openebsNFS) (text : String) (k : Nat) (key name v : String)
    (htext : text.data = renderItems r (items templateNodes))
    (hvals : ∀ line ∈ (itemLines templateNodes).take (k + 1), ∀ name, Sum.inr name ∈ line →
      Char.ofNat 10 ∉ renderItem r (Sum.inr name))
    (hshape : (itemLines templateNodes)[k]? = some (key.data.map Sum.inl ++ [Sum.inr name]))
    (hv : r.lookup name = some (FieldValue.str v))
    (hname : ∃ c cs, v.data = c :: cs ∧ isLowerAlnum c = true ∧
      ∀ d ∈ c :: cs, isNameChar d = true) :
    scalarAt text k key = some v.data := by
  obtain ⟨c, cs, hd, hc, hall⟩ := hname
  unfold scalarAt
  rw [htext, line_of_shape r k _ hvals hshape, renderItems_append, renderItems_text,
    renderItems_field r name v [] hv, htmlEscape_name _ (by rw [hd]; exact hall)]
  simp only [renderItems, List.append_nil, Option.some_bind]
  rw [afterLeading_append, Option.some_bind, hd]
  exact scalarValue_name c cs hc hall

theorem take_mono_values (r : openebsNFS) (lines : List (List (Char ⊕ String))) (k b : Nat)
    (hkb : k ≤ b)
    (hvals : ∀ line ∈ lines.take (b + 1), ∀ name, Sum.inr name ∈ line →
      Char.ofNat 10 ∉ renderItem r (Sum.inr name)) :
    ∀ line ∈ lines.take (k + 1), ∀ name, Sum.inr name ∈ line →
      Char.ofNat 10 ∉ renderItem r (Sum.inr name) := by
  intro line hl
  have e : lines.take (k + 1) = (lines.take (b + 1)).take (k + 1) := by
    rw [List.take_take, Nat.min_eq_left (by omega)]
  rw [e] at hl
  exact hvals line (List.mem_of_mem_take hl)

theorem no_marker_items (r : openebsNFS) (l : List (Char ⊕ String)) (a b : Nat)
    (hvals : ∀ line ∈ (splitOn (Sum.inl (Char.ofNat 10)) l).take (b + 1), ∀ name,
      Sum.inr name ∈ line → Char.ofNat 10 ∉ renderItem r (Sum.inr name))
    (hcheck : (((splitOn (Sum.inl (Char.ofNat 10)) l).take (b + 1)).drop a).all
      startsWithoutHyphen = true) :
    noMarkerBetween (renderItems r l) a b := by
  intro k hak hkb heq
  have hline := lineAt_renderItems r l k (take_mono_values r _ k b hkb hvals)
  rw [hline] at heq
  cases hs : (splitOn (Sum.inl (Char.ofNat 10)) l)[k]? with
  | none => rw [hs] at heq; exact Option.noConfusion heq
  | some shape =>
    rw [hs, Option.map_some', Option.some.injEq] at heq
    have hmem : shape ∈ ((splitOn (Sum.inl (Char.ofNat 10)) l).take (b + 1)).drop a := by
      have h1 : (((splitOn (Sum.inl (Char.ofNat 10)) l).take (b + 1)).drop a)[k - a]? =
          some shape := by
        rw [List.getElem?_drop, List.getElem?_take]
        have e : a + (k - a) = k := by omega
        rw [e, if_pos (by omega)]
        exact hs
      exact List.getElem?_mem h1
    rw [List.all_eq_true] at hcheck
    have hst := hcheck shape hmem
    cases shape with
    | nil => exact List.noConfusion heq
    | cons i rest =>
      cases i with
      | inl c =>
        have hc : c ≠ Char.ofNat 45 := by simpa [startsWithoutHyphen] using hst
        have e : renderItems r (Sum.inl c :: rest) = c :: renderItems r rest := rfl
        rw [e] at heq
        exact hc (List.cons.inj heq).1
      | inr name => simp [startsWithoutHyphen] at hst

/-- Lines of the manifest that stem from template lines not beginning with a
hyphen are no document markers. -/
theorem no_marker_between (r : openebsNFS) (text : String) (a b : Nat)
    (htext : text.data = renderItems r (items templateNodes))
    (hvals : ∀ line ∈ (itemLines templateNodes).take (b + 1), ∀ name, Sum.inr name ∈ line →
      Char.ofNat 10 ∉ renderItem r (Sum.inr name))
    (hcheck : (((itemLines templateNodes).take (b + 1)).drop a).all startsWithoutHyphen = true) :
    noMarkerBetween text.data a b := by
  unfold itemLines at hvals hcheck
  rw [htext]
  exact no_marker_items r (items templateNodes) a b hvals hcheck

/-- Rendering succeeds, and the text consists of the items of the template as
the derived record renders them. -/
theorem rendered_text (fused : Bool) (app : String) (size : F64) (sc : String) :
    ∃ text, renderedText fused app size sc = some text ∧
      text.data = renderItems (deriveRecord fused (flagValues app size sc))
        (items templateNodes) := by
  obtain ⟨out, h, hout⟩ := rendered_out fused app size sc
  exact ⟨String.mk out, h, hout⟩

theorem label_no_newline (app : String) (happ : isDNS1123Label app = true) :
    Char.ofNat 10 ∉ app.data := fun h =>
  nameChar_ne_newline _ ((label_name_chars app happ).1 _ h) rfl

/-- The lines of the parsed template are the lines of its text, parsed one by
one, and an empty last line. -/
theorem itemLines_template : itemLines templateNodes = templateLines.map lineItems ++ [[]] := by
  decide!

theorem shape_at (k : Nat) (shape : List (Char ⊕ String))
    (h : (templateLines.map lineItems ++ [[]])[k]? = some shape) :
    (itemLines templateNodes)[k]? = some shape := by
  rw [itemLines_template]; exact h

theorem no_hyphen_at (a b : Nat)
    (h : (((templateLines.map lineItems ++ [[]]).take (b + 1)).drop a).all
      startsWithoutHyphen = true) :
    (((itemLines templateNodes).take (b + 1)).drop a).all startsWithoutHyphen = true := by
  rw [itemLines_template]; exact h

/-- C1: the record `Run` builds has the eight derived names, the fixed access
mode, and carries the application name, the storage class and the size
unchanged. -/
theorem derived_record_fields (fused : Bool) (app : String) (size : F64) (sc : String) :
    (Run fused (flagValues app size sc)).1.ProvisionerStatefulName = app ++ "-openebs-nfs-provisioner" ∧
    (Run fused (flagValues app size sc)).1.NFSClusterRoleName = app ++ "-openebs-nfs-provisioner-runner" ∧
    (Run fused (flagValues app size sc)).1.NFSClusterRoleBindingName = app ++ "-openebs-run-nfs-provisioner" ∧
    (Run fused (flagValues app size sc)).1.NFSRoleName = app ++ "-openebs-leader-locking-nfs-provisioner" ∧
    (Run fused (flagValues app size sc)).1.ProvisionerName = app ++ "openebs.io/nfs" ∧
    (Run fused (flagValues app size sc)).1.OpenebsPVCName = app ++ "openebspvc" ∧
    (Run fused (flagValues app size sc)).1.NFSStorageClass = app ++ "-openebs-nfs" ∧
    (Run fused (flagValues app size sc)).1.NFSPVCName = app ++ "-openebs-nfs-pvc" ∧
    (Run fused (flagValues app size sc)).1.NFSAccessMode = "ReadWriteMany" ∧
    (Run fused (flagValues app size sc)).1.ApplicationName = app ∧
    (Run fused (flagValues app size sc)).1.OpenebsStorageClass = sc ∧
    (Run fused (flagValues app size sc)).1.StorageSize = size := by
  refine ⟨?_, ?_, ?_, ?_, ?_, ?_, ?_, ?_, ?_, ?_, ?_, ?_⟩ <;>
    simp only [Run, deriveRecord, flagValues, String.append_assoc] <;> rfl

/-- C2 (amended): for every finite requested size `s` whose `float64` value
`s + 0.1*s` is finite too, `NFSStorageSize` is `s` rounded to two decimal
places, written as digits, a point, exactly two digits and `G`, and
`OpenebsStorageSize` is the `float64` value of `s + 0.1*s` written the same
way; application `myapp` with size 5 gives `5.00G`, `5.50G` and
`myapp-openebs-nfs-provisioner`, and `foo` with size 10 gives `10.00G` and
`11.00G`. -/
theorem sizes_written_fixed_point (fused : Bool) (app : String) (s : F64) (sc : String)
    (hs : s.isFinite = true) (hx : (inflate fused s).isFinite = true) :
    (∃ w, writtenNumber (Run fused (flagValues app s sc)).1.NFSStorageSize = some w ∧
      IsRoundedTo2 w s.toRat) ∧
    (∃ w, writtenNumber (Run fused (flagValues app s sc)).1.OpenebsStorageSize = some w ∧
      IsRoundedTo2 w (inflate fused s).toRat) ∧
    (Run fused (flagValues "myapp" (F64.ofRatio false 5 1) sc)).1.NFSStorageSize = "5.00G" ∧
    (Run fused (flagValues "myapp" (F64.ofRatio false 5 1) sc)).1.OpenebsStorageSize = "5.50G" ∧
    (Run fused (flagValues "myapp" (F64.ofRatio false 5 1) sc)).1.ProvisionerStatefulName =
      "myapp-openebs-nfs-provisioner" ∧
    (Run fused (flagValues "foo" (F64.ofRatio false 10 1) sc)).1.NFSStorageSize = "10.00G" ∧
    (Run fused (flagValues "foo" (F64.ofRatio false 10 1) sc)).1.OpenebsStorageSize = "11.00G" := by
  refine ⟨⟨_, ?_, isRoundedTo2_hundredths s⟩, ⟨_, ?_, isRoundedTo2_hundredths (inflate fused s)⟩,
    ?_, ?_, ?_, ?_, ?_⟩
  · rw [nfsStorageSize_eq, writtenNumber_sprintf2f s hs]
  · rw [openebsStorageSize_eq, writtenNumber_sprintf2f _ hx]
  · rw [nfsStorageSize_eq]; decide!
  · rw [openebsStorageSize_eq]; cases fused <;> decide!
  · show "myapp" ++ "-" ++ defaultProvisioneStatefulName = _
    decide!
  · rw [nfsStorageSize_eq]; decide!
  · rw [openebsStorageSize_eq]; cases fused <;> decide!

/-- C2 (witness): the amended claim at the default size 5. -/
theorem sizes_written_fixed_point_witness :
    defaultStorageSize.isFinite = true ∧ (inflate false defaultStorageSize).isFinite = true ∧
    (∃ w, writtenNumber (Run false (flagValues "myapp" defaultStorageSize
        defaultOpenebsStorageClass)).1.NFSStorageSize = some w ∧
      IsRoundedTo2 w defaultStorageSize.toRat) :=
  ⟨by decide!, by decide!,
    (sizes_written_fixed_point false "myapp" defaultStorageSize defaultOpenebsStorageClass
      (by decide!) (by decide!)).1⟩

/-- C2 (counterexample): the flag value `NaN` is a requested size for which
both size strings are `NaNG`, which has no decimal point and no digits. -/
theorem nan_size_not_fixed_point :
    (Run false (flagValues "myapp" F64.nan defaultOpenebsStorageClass)).1.NFSStorageSize = "NaNG" ∧
    (Run false (flagValues "myapp" F64.nan defaultOpenebsStorageClass)).1.OpenebsStorageSize = "NaNG" ∧
    writtenNumber (Run false (flagValues "myapp" F64.nan
      defaultOpenebsStorageClass)).1.NFSStorageSize = none := by
  refine ⟨by decide!, by decide!, ?_⟩
  have h : writtenHundredths (Run false (flagValues "myapp" F64.nan
      defaultOpenebsStorageClass)).1.NFSStorageSize = none := by decide!
  simp [writtenNumber, h]

/-- C3 (amended): for every finite requested size `s > 0` whose `float64`
value `s + 0.1*s` is finite, the number written in `OpenebsStorageSize` is
greater than or equal to the number written in `NFSStorageSize`, and it is
strictly greater whenever `s ≥ 0.1`. -/
theorem openebs_size_ge_nfs_size_of_pos (fused : Bool) (app : String) (s : F64) (sc : String)
    (hs : s.isFinite = true) (hpos : 0 < s.toRat) (hx : (inflate fused s).isFinite = true) :
    ∃ a b : ℚ,
      writtenNumber (Run fused (flagValues app s sc)).1.NFSStorageSize = some a ∧
      writtenNumber (Run fused (flagValues app s sc)).1.OpenebsStorageSize = some b ∧
      a ≤ b ∧ (1 / 10 ≤ s.toRat → a < b) := by
  have hneg := toRat_pos_cases s hpos
  refine ⟨_, _, ?_, ?_, hundredths_inflate_ge fused s hs (le_of_lt hpos) hx, ?_⟩
  · rw [nfsStorageSize_eq, writtenNumber_sprintf2f s hs]
  · rw [openebsStorageSize_eq, writtenNumber_sprintf2f _ hx]
  · intro h10
    have hgt := hundredths_inflate_gt fused s hs hneg (tenth_le_toRat s hneg h10) hx
    rw [hneg, (inflate_ge fused s hs hneg hx).1]
    simp only [Bool.false_eq_true, if_false, one_mul, Int.cast_natCast]
    have : (s.hundredths : ℚ) < ((inflate fused s).hundredths : ℚ) := by exact_mod_cast hgt
    linarith

/-- C3 (witness): the amended claim at the default size 5. -/
theorem openebs_size_ge_nfs_size_of_pos_witness :
    defaultStorageSize.isFinite = true ∧ 0 < defaultStorageSize.toRat ∧
    (inflate false defaultStorageSize).isFinite = true ∧
    ∃ a b : ℚ,
      writtenNumber (Run false (flagValues "myapp" defaultStorageSize
        defaultOpenebsStorageClass)).1.NFSStorageSize = some a ∧
      writtenNumber (Run false (flagValues "myapp" defaultStorageSize
        defaultOpenebsStorageClass)).1.OpenebsStorageSize = some b ∧
      a ≤ b ∧ (1 / 10 ≤ defaultStorageSize.toRat → a < b) :=
  ⟨by decide!, toRat_pos _ rfl (by decide!), by decide!,
    openebs_size_ge_nfs_size_of_pos false "myapp" defaultStorageSize defaultOpenebsStorageClass
      (by decide!) (toRat_pos _ rfl (by decide!)) (by decide!)⟩

/-- C3 (counterexample): the requested size `0.001` is positive, and both
size strings are `0.00G`: the number written in `OpenebsStorageSize` is not
greater than the one in `NFSStorageSize`. -/
theorem tiny_size_not_strictly_inflated :
    0 < (F64.ofRatio false 1 1000).toRat ∧
    (Run false (flagValues "myapp" (F64.ofRatio false 1 1000)
      defaultOpenebsStorageClass)).1.NFSStorageSize = "0.00G" ∧
    (Run false (flagValues "myapp" (F64.ofRatio false 1 1000)
      defaultOpenebsStorageClass)).1.OpenebsStorageSize = "0.00G" ∧
    ¬ ∃ a b : ℚ,
      writtenNumber (Run false (flagValues "myapp" (F64.ofRatio false 1 1000)
        defaultOpenebsStorageClass)).1.NFSStorageSize = some a ∧
      writtenNumber (Run false (flagValues "myapp" (F64.ofRatio false 1 1000)
        defaultOpenebsStorageClass)).1.OpenebsStorageSize = some b ∧ a < b := by
  have h1 : (Run false (flagValues "myapp" (F64.ofRatio false 1 1000)
      defaultOpenebsStorageClass)).1.NFSStorageSize = "0.00G" := by decide!
  have h2 : (Run false (flagValues "myapp" (F64.ofRatio false 1 1000)
      defaultOpenebsStorageClass)).1.OpenebsStorageSize = "0.00G" := by decide!
  refine ⟨toRat_pos _ rfl (by decide!), h1, h2, ?_⟩
  rw [h1, h2, writtenNumber_of_hundredths "0.00G" 0 (by decide!)]
  rintro ⟨a, b, ha, hb, hab⟩
  rw [Option.some.injEq] at ha hb
  rw [← ha, ← hb] at hab
  exact lt_irrefl _ hab

/-- C4 (amended): for every finite requested size `s > 0` whose `float64`
value `x` of `s + 0.1*s` is finite, the number written in
`OpenebsStorageSize` is `x` rounded to two decimal places (ties to the even
hundredth), and `x` differs from `1.1 * s` by at most `s / 2^52 + 2^-1073`. -/
theorem openebs_size_rounds_float_sum (fused : Bool) (app : String) (s : F64) (sc : String)
    (hs : s.isFinite = true) (hpos : 0 < s.toRat) (hx : (inflate fused s).isFinite = true) :
    ∃ w : ℚ,
      writtenNumber (Run fused (flagValues app s sc)).1.OpenebsStorageSize = some w ∧
      IsRoundedTo2 w (inflate fused s).toRat ∧
      |(inflate fused s).toRat - 11 / 10 * s.toRat| ≤ s.toRat / 2 ^ 52 + 2 / (unitsPerOne : ℚ) := by
  refine ⟨_, ?_, isRoundedTo2_hundredths (inflate fused s),
    inflate_toRat_error fused s hs (toRat_pos_cases s hpos) hx⟩
  rw [openebsStorageSize_eq, writtenNumber_sprintf2f _ hx]

/-- C4 (witness): the amended claim at the default size 5. -/
theorem openebs_size_rounds_float_sum_witness :
    defaultStorageSize.isFinite = true ∧ 0 < defaultStorageSize.toRat ∧
    (inflate false defaultStorageSize).isFinite = true ∧
    ∃ w : ℚ,
      writtenNumber (Run false (flagValues "myapp" defaultStorageSize
        defaultOpenebsStorageClass)).1.OpenebsStorageSize = some w ∧
      IsRoundedTo2 w (inflate false defaultStorageSize).toRat ∧
      |(inflate false defaultStorageSize).toRat - 11 / 10 * defaultStorageSize.toRat| ≤
        defaultStorageSize.toRat / 2 ^ 52 + 2 / (unitsPerOne : ℚ) :=
  ⟨by decide!, toRat_pos _ rfl (by decide!), by decide!,
    openebs_size_rounds_float_sum false "myapp" defaultStorageSize defaultOpenebsStorageClass
      (by decide!) (toRat_pos _ rfl (by decide!)) (by decide!)⟩

/-- C4 (counterexample): for the requested size `0.45` the manifest says
`0.49G`, in either evaluation of `s + 0.1*s`, while `1.1 * s` is above
`0.495`: `0.49` is more than half a hundredth away from it, so it is not
`1.1 * s` rounded to two decimal places. -/
theorem openebs_size_not_rounded_product :
    0 < (F64.ofRatio false 45 100).toRat ∧
    (Run false (flagValues "myapp" (F64.ofRatio false 45 100)
      defaultOpenebsStorageClass)).1.OpenebsStorageSize = "0.49G" ∧
    (Run true (flagValues "myapp" (F64.ofRatio false 45 100)
      defaultOpenebsStorageClass)).1.OpenebsStorageSize = "0.49G" ∧
    writtenNumber "0.49G" = some (49 / 100) ∧
    ¬ IsRoundedTo2 (49 / 100) (11 / 10 * (F64.ofRatio false 45 100).toRat) := by
  have hw : writtenNumber "0.49G" = some (49 / 100) := by
    rw [writtenNumber_of_hundredths "0.49G" 49 (by decide!)]
    norm_num
  refine ⟨toRat_pos _ rfl (by decide!), by decide!, by decide!, hw, ?_⟩
  rintro ⟨h, _, hle, _⟩
  have hS : 9 * unitsPerOne < 20 * (F64.ofRatio false 45 100).scaled := by decide!
  have hU : (0 : ℚ) < (unitsPerOne : ℚ) := by exact_mod_cast unitsPerOne_pos
  have hSq : 9 * (unitsPerOne : ℚ) < 20 * ((F64.ofRatio false 45 100).scaled : ℚ) := by
    exact_mod_cast hS
  have hgt : (9 : ℚ) / 20 < (F64.ofRatio false 45 100).toRat := by
    rw [toRat_of_nonneg _ rfl, lt_div_iff₀ hU]
    linarith
  rw [abs_le] at hle
  linarith [hle.1]

/-- C5 (amended): in every record derived from a finite requested size
`s ≥ 0` whose `float64` value `s + 0.1*s` is finite, the number written in
`OpenebsStorageSize` is greater than or equal to the number written in
`NFSStorageSize`. -/
theorem openebs_size_ge_nfs_size_of_nonneg (fused : Bool) (app : String) (s : F64) (sc : String)
    (hs : s.isFinite = true) (h0 : 0 ≤ s.toRat) (hx : (inflate fused s).isFinite = true) :
    ∃ a b : ℚ,
      writtenNumber (Run fused (flagValues app s sc)).1.NFSStorageSize = some a ∧
      writtenNumber (Run fused (flagValues app s sc)).1.OpenebsStorageSize = some b ∧
      a ≤ b := by
  refine ⟨_, _, ?_, ?_, hundredths_inflate_ge fused s hs h0 hx⟩
  · rw [nfsStorageSize_eq, writtenNumber_sprintf2f s hs]
  · rw [openebsStorageSize_eq, writtenNumber_sprintf2f _ hx]

/-- C5 (witness): the amended claim at the size 0, fused evaluation. -/
theorem openebs_size_ge_nfs_size_of_nonneg_witness :
    (F64.mk false 0).isFinite = true ∧ 0 ≤ (F64.mk false 0).toRat ∧
    (inflate true (F64.mk false 0)).isFinite = true ∧
    ∃ a b : ℚ,
      writtenNumber (Run true (flagValues "myapp" (F64.mk false 0)
        defaultOpenebsStorageClass)).1.NFSStorageSize = some a ∧
      writtenNumber (Run true (flagValues "myapp" (F64.mk false 0)
        defaultOpenebsStorageClass)).1.OpenebsStorageSize = some b ∧
      a ≤ b :=
  ⟨by decide!, by simp [toRat_eq, F64.scaled], by decide!,
    openebs_size_ge_nfs_size_of_nonneg true "myapp" (F64.mk false 0) defaultOpenebsStorageClass
      (by decide!) (by simp [toRat_eq, F64.scaled]) (by decide!)⟩

/-- C5 (counterexample): for the requested size `-5` the record has
`NFSStorageSize = "-5.00G"` and `OpenebsStorageSize = "-5.50G"`: the number
written in `OpenebsStorageSize` is smaller. -/
theorem negative_size_openebs_lt_nfs :
    (Run false (flagValues "myapp" (F64.ofRatio true 5 1)
      defaultOpenebsStorageClass)).1.NFSStorageSize = "-5.00G" ∧
    (Run false (flagValues "myapp" (F64.ofRatio true 5 1)
      defaultOpenebsStorageClass)).1.OpenebsStorageSize = "-5.50G" ∧
    ∃ a b : ℚ,
      writtenNumber (Run false (flagValues "myapp" (F64.ofRatio true 5 1)
        defaultOpenebsStorageClass)).1.NFSStorageSize = some a ∧
      writtenNumber (Run false (flagValues "myapp" (F64.ofRatio true 5 1)
        defaultOpenebsStorageClass)).1.OpenebsStorageSize = some b ∧ b < a := by
  have h1 : (Run false (flagValues "myapp" (F64.ofRatio true 5 1)
      defaultOpenebsStorageClass)).1.NFSStorageSize = "-5.00G" := by decide!
  have h2 : (Run false (flagValues "myapp" (F64.ofRatio true 5 1)
      defaultOpenebsStorageClass)).1.OpenebsStorageSize = "-5.50G" := by decide!
  refine ⟨h1, h2, ((-500 : Int) : ℚ) / 100, ((-550 : Int) : ℚ) / 100, ?_, ?_, ?_⟩
  · rw [h1]; exact writtenNumber_of_hundredths "-5.00G" (-500) (by decide!)
  · rw [h2]; exact writtenNumber_of_hundredths "-5.50G" (-550) (by decide!)
  · norm_num

/-- C6: for two distinct application names, each of the eight derived name
fields of the record derived from the one differs from the same field of the
record derived from the other (whatever the sizes and storage classes). -/
theorem derived_names_injective (fused₁ fused₂ : Bool) (a b : String) (size₁ size₂ : F64) (sc₁ sc₂ : String)
    (hab : a ≠ b) :
    (Run fused₁ (flagValues a size₁ sc₁)).1.ProvisionerStatefulName ≠ (Run fused₂ (flagValues b size₂ sc₂)).1.ProvisionerStatefulName ∧
    (Run fused₁ (flagValues a size₁ sc₁)).1.NFSClusterRoleName ≠ (Run fused₂ (flagValues b size₂ sc₂)).1.NFSClusterRoleName ∧
    (Run fused₁ (flagValues a size₁ sc₁)).1.NFSClusterRoleBindingName ≠ (Run fused₂ (flagValues b size₂ sc₂)).1.NFSClusterRoleBindingName ∧
    (Run fused₁ (flagValues a size₁ sc₁)).1.NFSRoleName ≠ (Run fused₂ (flagValues b size₂ sc₂)).1.NFSRoleName ∧
    (Run fused₁ (flagValues a size₁ sc₁)).1.ProvisionerName ≠ (Run fused₂ (flagValues b size₂ sc₂)).1.ProvisionerName ∧
    (Run fused₁ (flagValues a size₁ sc₁)).1.OpenebsPVCName ≠ (Run fused₂ (flagValues b size₂ sc₂)).1.OpenebsPVCName ∧
    (Run fused₁ (flagValues a size₁ sc₁)).1.NFSStorageClass ≠ (Run fused₂ (flagValues b size₂ sc₂)).1.NFSStorageClass ∧
    (Run fused₁ (flagValues a size₁ sc₁)).1.NFSPVCName ≠ (Run fused₂ (flagValues b size₂ sc₂)).1.NFSPVCName := by
  refine ⟨?_, ?_, ?_, ?_, ?_, ?_, ?_, ?_⟩ <;>
    simp only [Run, deriveRecord, flagValues, String.append_assoc] <;>
    exact fun h => hab (append_right_cancel h)

/-- C6 (witness): the application names `foo` and `bar`. -/
theorem derived_names_injective_witness :
    ("foo" : String) ≠ "bar" ∧
    (Run false (flagValues "foo" defaultStorageSize "sc")).1.NFSPVCName ≠
      (Run false (flagValues "bar" defaultStorageSize "sc")).1.NFSPVCName :=
  ⟨by decide, (derived_names_injective false false "foo" "bar" defaultStorageSize defaultStorageSize
    "sc" "sc" (by decide)).2.2.2.2.2.2.2⟩

/-- C7 (amended): the derivation concatenates the application name with
eight fixed suffixes to build eight derived names.  Exactly six of them join
the application name and the suffix with a hyphen: ProvisionerStatefulName,
NFSClusterRoleName, NFSClusterRoleBindingName, NFSRoleName, NFSStorageClass
and NFSPVCName; exactly two join them with no separator: ProvisionerName and
OpenebsPVCName. -/
theorem eight_names_six_hyphens (fused : Bool) (app : String) (size : F64) (sc : String) :
    (derivedNames (Run fused (flagValues app size sc)).1).length = 8 ∧
    defaultSuffixes.length = 8 ∧
    (separatorOf app (Run fused (flagValues app size sc)).1.ProvisionerStatefulName
        defaultProvisioneStatefulName = some "-" ∧
      separatorOf app (Run fused (flagValues app size sc)).1.NFSClusterRoleName
        defaultNFSClusterRoleName = some "-" ∧
      separatorOf app (Run fused (flagValues app size sc)).1.NFSClusterRoleBindingName
        defaultNFSClusterRoleBindingName = some "-" ∧
      separatorOf app (Run fused (flagValues app size sc)).1.NFSRoleName
        defaultNFSRoleName = some "-" ∧
      separatorOf app (Run fused (flagValues app size sc)).1.NFSStorageClass
        defaultNFSStorageClass = some "-" ∧
      separatorOf app (Run fused (flagValues app size sc)).1.NFSPVCName
        defaultNFSPVCName = some "-") ∧
    (separatorOf app (Run fused (flagValues app size sc)).1.ProvisionerName
        defaultProvisionerName = some "" ∧
      separatorOf app (Run fused (flagValues app size sc)).1.OpenebsPVCName
        defaultOpenebsPVCName = some "") ∧
    separators app (Run fused (flagValues app size sc)).1 =
      [some "-", some "-", some "-", some "-", some "", some "", some "-", some "-"] ∧
    (separators app (Run fused (flagValues app size sc)).1).count (some "-") = 6 ∧
    (separators app (Run fused (flagValues app size sc)).1).count (some "") = 2 := by
  have h := separators_eq fused app size sc
  refine ⟨rfl, rfl, ?_, ?_, h, by rw [h]; decide, by rw [h]; decide⟩
  · simp [separatorOf, Run, deriveRecord, flagValues]
  · simp [separatorOf, Run, deriveRecord, flagValues, append_ne_hyphen_append]

/-- C7 (counterexample): for the application `myapp` the record has eight
derived names, not nine; six of them, not three, are joined with a hyphen and
two, not three, with no separator. -/
theorem not_nine_names_three_hyphens :
    (derivedNames (Run false (flagValues "myapp" defaultStorageSize
      defaultOpenebsStorageClass)).1).length ≠ 9 ∧
    (separators "myapp" (Run false (flagValues "myapp" defaultStorageSize
      defaultOpenebsStorageClass)).1).count (some "-") ≠ 3 ∧
    (separators "myapp" (Run false (flagValues "myapp" defaultStorageSize
      defaultOpenebsStorageClass)).1).count (some "") ≠ 3 := by
  rw [separators_eq]
  refine ⟨by decide, by decide, by decide⟩

/-- C8 (amended): the template, split at its `---` document marker lines,
consists of exactly eleven Kubernetes objects whose kinds are, in order:
PodSecurityPolicy, ClusterRole, ClusterRoleBinding, Role, RoleBinding,
ServiceAccount, Service, Deployment, PersistentVolumeClaim, StorageClass,
PersistentVolumeClaim; the StorageClass stands between the two claims. -/
theorem template_kinds :
    templateKinds =
      [some "PodSecurityPolicy", some "ClusterRole", some "ClusterRoleBinding", some "Role",
       some "RoleBinding", some "ServiceAccount", some "Service", some "Deployment",
       some "PersistentVolumeClaim", some "StorageClass", some "PersistentVolumeClaim"] ∧
    templateKinds.length = 11 := by
  decide!

/-- C8 (counterexample): the template does not have ten documents, and their
kinds are not in the order the claim lists (the two claims are not
adjacent). -/
theorem template_not_ten_in_claimed_order :
    templateKinds.length ≠ 10 ∧
    templateKinds ≠
      [some "PodSecurityPolicy", some "ClusterRole", some "ClusterRoleBinding", some "Role",
       some "RoleBinding", some "ServiceAccount", some "Service", some "Deployment",
       some "PersistentVolumeClaim", some "PersistentVolumeClaim", some "StorageClass"] := by
  decide!

/-- C9 (amended): every placeholder of `openebsNFSTemplate` names a string
field of the `openebsNFS` record, so rendering never fails on a missing
field; and for every size, and every application name and storage class that
contain neither two adjacent left braces nor two adjacent right braces, the
rendered text contains no such placeholder marker. -/
theorem placeholders_resolved (fused : Bool) (app : String) (size : F64) (sc : String)
    (happ : hasMarker app.data = false) (hsc : hasMarker sc.data = false) :
    parseTemplate openebsNFSTemplate = .ok templateNodes ∧
    (∀ name ∈ placeholders templateNodes, ∀ r : openebsNFS,
      ∃ v, r.lookup name = some (FieldValue.str v)) ∧
    (∀ r : openebsNFS, ∃ file, generateTemplate r = .ok file) ∧
    ∃ text, renderedText fused app size sc = some text ∧ hasMarker text.data = false := by
  refine ⟨parseTemplate_ok, lookup_of_placeholder, generateTemplate_ok, ?_⟩
  obtain ⟨out, hout, hm, _⟩ := execute_no_marker (deriveRecord fused (flagValues app size sc))
    templateNodes separated_templateNodes (derived_values_no_marker fused app size sc happ hsc)
  exact ⟨String.mk out, renderedText_eq fused app size sc out hout, hm⟩

/-- C9 (witness): the amended claim at the application `myapp` with the
default size and storage class. -/
theorem placeholders_resolved_witness :
    hasMarker ("myapp" : String).data = false ∧ hasMarker defaultOpenebsStorageClass.data = false ∧
    ∃ text, renderedText false "myapp" defaultStorageSize defaultOpenebsStorageClass = some text ∧
      hasMarker text.data = false :=
  ⟨by decide, by decide,
    (placeholders_resolved false "myapp" defaultStorageSize defaultOpenebsStorageClass
      (by decide) (by decide)).2.2.2⟩

/-- C9 (counterexample): the application name `\x7b\x7bx` is copied into the
manifest as it is, so the rendered text contains a placeholder marker. -/
theorem rendered_marker_from_name :
    (renderedText false "\x7b\x7bx" defaultStorageSize defaultOpenebsStorageClass).map
      (fun text => hasMarker text.data) = some true := by
  decide!

/-- C10 (failing input): for the application name `a&b` the rendered text is
not the template with the field values put in literally: `html/template`
writes the ampersand of the name as `&amp;`, so the fifth line of the
manifest names the PodSecurityPolicy `a&amp;b-openebs-nfs-provisioner`
although the record holds `a&b-openebs-nfs-provisioner`. -/
theorem html_escaping_alters_values :
    (deriveRecord false (flagValues "a&b" defaultStorageSize
      defaultOpenebsStorageClass)).ProvisionerStatefulName = "a&b-openebs-nfs-provisioner" ∧
    (renderedText false "a&b" defaultStorageSize defaultOpenebsStorageClass).map
      (fun text => (splitOn (Char.ofNat 10) text.data)[4]?) =
        some (some "  name: a&amp;b-openebs-nfs-provisioner".data) ∧
    ((execute (deriveRecord false (flagValues "a&b" defaultStorageSize defaultOpenebsStorageClass))
        templateNodes).toOption ≠
      (substituteLiteral (deriveRecord false (flagValues "a&b" defaultStorageSize
        defaultOpenebsStorageClass)) templateNodes).toOption) := by
  decide!

/-- C11: for every application name, size and storage class, `Run` hands the
file sink exactly the path `app ++ "-nfs.yaml"`; the path is the same for any
two sizes, storage classes and evaluations of `s + 0.1*s`. -/
theorem output_path (fused₁ fused₂ : Bool) (app : String) (size₁ size₂ : F64) (sc₁ sc₂ : String) :
    (∃ file, (Run fused₁ (flagValues app size₁ sc₁)).2 = .ok file ∧
      file.path = app ++ "-nfs.yaml") ∧
    ∃ file₁ file₂, (Run fused₁ (flagValues app size₁ sc₁)).2 = .ok file₁ ∧
      (Run fused₂ (flagValues app size₂ sc₂)).2 = .ok file₂ ∧ file₁.path = file₂.path := by
  obtain ⟨f₁, h₁, p₁⟩ := run_path fused₁ app size₁ sc₁
  obtain ⟨f₂, h₂, p₂⟩ := run_path fused₂ app size₂ sc₂
  exact ⟨⟨f₁, h₁, p₁⟩, f₁, f₂, h₁, h₂, by rw [p₁, p₂]⟩

/-- C12: the record `Run` derives, and the outcome of rendering it (the path
and the text of the manifest), depend on the application name, the requested
size and the backing storage class alone: two runs whose global record agrees
on these three fields, whatever its other fields hold, derive the same record
and render the same text, in either evaluation of `s + 0.1*s`. -/
theorem run_deterministic (fused : Bool) (g₁ g₂ : openebsNFS)
    (happ : g₁.ApplicationName = g₂.ApplicationName) (hsize : g₁.StorageSize = g₂.StorageSize)
    (hsc : g₁.OpenebsStorageClass = g₂.OpenebsStorageClass) :
    Run fused g₁ = Run fused g₂ ∧
    ∃ text, renderedText fused g₁.ApplicationName g₁.StorageSize g₁.OpenebsStorageClass = some text ∧
      (Run fused g₁).2.toOption.map (fun file => file.content) = some text ∧
      (Run fused g₂).2.toOption.map (fun file => file.content) = some text := by
  have hrun := run_congr fused g₁ g₂ (deriveRecord_congr fused g₁ g₂ happ hsize hsc)
  have hflag := run_congr fused (flagValues g₁.ApplicationName g₁.StorageSize g₁.OpenebsStorageClass)
    g₁ (deriveRecord_congr fused _ g₁ rfl rfl rfl)
  refine ⟨hrun, ?_⟩
  obtain ⟨file, hfile, _⟩ := run_path fused g₁.ApplicationName g₁.StorageSize g₁.OpenebsStorageClass
  have h₁ : (Run fused g₁).2 = .ok file := by rw [← hflag]; exact hfile
  refine ⟨file.content, ?_, ?_, ?_⟩
  · unfold renderedText
    rw [hfile]
  · rw [h₁]; rfl
  · rw [← hrun, h₁]; rfl

/-- C12 (witness): the global as the flags leave it, and the same global with
stale text in two derived fields. -/
theorem run_deterministic_witness :
    Run false (flagValues "myapp" defaultStorageSize defaultOpenebsStorageClass) =
      Run false { flagValues "myapp" defaultStorageSize defaultOpenebsStorageClass with
        NFSRoleName := "stale", OpenebsStorageSize := "1.00G" } :=
  (run_deterministic false (flagValues "myapp" defaultStorageSize defaultOpenebsStorageClass)
    { flagValues "myapp" defaultStorageSize defaultOpenebsStorageClass with
        NFSRoleName := "stale", OpenebsStorageSize := "1.00G" } rfl rfl rfl).1

/-- C14: if the application name is a valid DNS-1123 label (non-empty, only
lowercase ASCII letters, digits and `-`, starting and ending with a letter or
digit), then each of ProvisionerStatefulName, NFSClusterRoleName,
NFSClusterRoleBindingName, NFSRoleName, OpenebsPVCName, NFSStorageClass and
NFSPVCName consists only of lowercase ASCII letters, digits and `-` and
starts and ends with a letter or digit. -/
theorem derived_names_are_labels (fused : Bool) (app : String) (size : F64) (sc : String)
    (happ : isDNS1123Label app = true) :
    ∀ name ∈ [(Run fused (flagValues app size sc)).1.ProvisionerStatefulName,
        (Run fused (flagValues app size sc)).1.NFSClusterRoleName,
        (Run fused (flagValues app size sc)).1.NFSClusterRoleBindingName,
        (Run fused (flagValues app size sc)).1.NFSRoleName,
        (Run fused (flagValues app size sc)).1.OpenebsPVCName,
        (Run fused (flagValues app size sc)).1.NFSStorageClass,
        (Run fused (flagValues app size sc)).1.NFSPVCName],
      name.data.all isLabelChar = true ∧ startsAndEndsAlnum name.data = true := by
  intro name hname
  simp only [Run, deriveRecord, flagValues, String.append_assoc, List.mem_cons,
    List.mem_singleton, List.not_mem_nil, or_false] at hname
  rcases hname with h | h | h | h | h | h | h <;> rw [h] <;>
    exact label_append app _ happ (by decide) (by decide)

/-- C14 (witness): the application name `myapp`. -/
theorem derived_names_are_labels_witness :
    isDNS1123Label "myapp" = true ∧
    (Run false (flagValues "myapp" defaultStorageSize
        defaultOpenebsStorageClass)).1.NFSRoleName.data.all isLabelChar = true ∧
    startsAndEndsAlnum (Run false (flagValues "myapp" defaultStorageSize
        defaultOpenebsStorageClass)).1.NFSRoleName.data = true :=
  ⟨by decide,
    derived_names_are_labels false "myapp" defaultStorageSize defaultOpenebsStorageClass
      (by decide) _ (by simp)⟩

/-- C15 (amended): for every application name that is a valid DNS-1123 label,
and every size and storage class, the ClusterRole document of the rendered
manifest (lines 25 to 48, between two document markers) holds the rule on
`podsecuritypolicies` whose `resourceNames` lists the one name
`nfs-provisioner` and whose `verbs` list `use`, while the name read from the
PodSecurityPolicy document of the same manifest (lines 2 to 4) is
`app ++ "-openebs-nfs-provisioner"`, which is not `nfs-provisioner`. -/
theorem psp_rule_names_other_policy (fused : Bool) (app : String) (size : F64) (sc : String)
    (happ : isDNS1123Label app = true) :
    ∃ text, renderedText fused app size sc = some text ∧
      lineAt text.data 2 = some "kind: PodSecurityPolicy".data ∧
      lineAt text.data 3 = some "metadata:".data ∧
      scalarAt text 4 "  name: " = some (app ++ "-openebs-nfs-provisioner").data ∧
      noMarkerBetween text.data 0 23 ∧
      lineAt text.data 24 = some "---".data ∧
      lineAt text.data 25 = some "kind: ClusterRole".data ∧
      noMarkerBetween text.data 25 48 ∧
      lineAt text.data 45 = some "  - apiGroups: [\"extensions\"]".data ∧
      lineAt text.data 46 = some "    resources: [\"podsecuritypolicies\"]".data ∧
      flowAt text 46 "    resources: " = some ["podsecuritypolicies".data] ∧
      lineAt text.data 47 = some "    resourceNames: [\"nfs-provisioner\"]".data ∧
      flowAt text 47 "    resourceNames: " = some ["nfs-provisioner".data] ∧
      flowAt text 48 "    verbs: " = some ["use".data] ∧
      lineAt text.data 49 = some "---".data ∧
      scalarAt text 4 "  name: " ≠ some "nfs-provisioner".data := by
  obtain ⟨text, htext, hdata⟩ := rendered_text fused app size sc
  have hvals := fun k hk =>
    early_lines_no_newline fused app size sc (label_no_newline app happ) k hk
  have hname : scalarAt text 4 "  name: " = some (app ++ "-openebs-nfs-provisioner").data := by
    have e : (app ++ "-" ++ defaultProvisioneStatefulName) = app ++ "-openebs-nfs-provisioner" := by
      rw [String.append_assoc]; rfl
    rw [← e]
    exact plain_name_line _ text 4 "  name: " "ProvisionerStatefulName" _ hdata
      (hvals 4 (by decide)) (shape_at _ _ (by decide!)) (by simp [openebsNFS.lookup]; rfl)
      (derived_name_chars app _ ("-" ++ defaultProvisioneStatefulName).data happ
        (by simp only [String.data_append, List.append_assoc]) (by decide))
  have h46 := text_line _ text 46 "    resources: [\"podsecuritypolicies\"]" hdata
    (hvals 46 (by decide)) (shape_at _ _ (by decide!))
  have h47 := text_line _ text 47 "    resourceNames: [\"nfs-provisioner\"]" hdata
    (hvals 47 (by decide)) (shape_at _ _ (by decide!))
  have h48 := text_line _ text 48 "    verbs: [\"use\"]" hdata (hvals 48 (by decide)) (shape_at _ _ (by decide!))
  refine ⟨text, htext,
    text_line _ text 2 "kind: PodSecurityPolicy" hdata (hvals 2 (by decide)) (shape_at _ _ (by decide!)),
    text_line _ text 3 "metadata:" hdata (hvals 3 (by decide)) (shape_at _ _ (by decide!)),
    hname,
    no_marker_between _ text 0 23 hdata (hvals 23 (by decide)) (no_hyphen_at _ _ (by decide!)),
    text_line _ text 24 "---" hdata (hvals 24 (by decide)) (shape_at _ _ (by decide!)),
    text_line _ text 25 "kind: ClusterRole" hdata (hvals 25 (by decide)) (shape_at _ _ (by decide!)),
    no_marker_between _ text 25 48 hdata (hvals 48 (by decide)) (no_hyphen_at _ _ (by decide!)),
    text_line _ text 45 "  - apiGroups: [\"extensions\"]" hdata (hvals 45 (by decide)) (shape_at _ _ (by decide!)),
    h46, ?_, h47, ?_, ?_,
    text_line _ text 49 "---" hdata (hvals 49 (by decide)) (shape_at _ _ (by decide!)), ?_⟩
  · unfold flowAt; rw [h46]; decide
  · unfold flowAt; rw [h47]; decide
  · unfold flowAt; rw [h48]; decide
  · rw [hname]
    intro h
    have h2 := congrArg List.length (Option.some.inj h)
    rw [String.data_append, List.length_append] at h2
    have h3 : ("-openebs-nfs-provisioner" : String).data.length = 24 := rfl
    have h4 : ("nfs-provisioner" : String).data.length = 15 := rfl
    rw [h3, h4] at h2
    omega

/-- C15 (witness): the application name `myapp`. -/
theorem psp_rule_names_other_policy_witness :
    isDNS1123Label "myapp" = true ∧
    ∃ text, renderedText false "myapp" defaultStorageSize defaultOpenebsStorageClass = some text ∧
      scalarAt text 4 "  name: " = some "myapp-openebs-nfs-provisioner".data ∧
      flowAt text 47 "    resourceNames: " = some ["nfs-provisioner".data] := by
  refine ⟨by decide, ?_⟩
  obtain ⟨text, h, _, _, h4, _, _, _, _, _, _, _, _, h47, _⟩ :=
    psp_rule_names_other_policy false "myapp" defaultStorageSize defaultOpenebsStorageClass
      (by decide)
  exact ⟨text, h, h4, h47⟩

/-- C15 (counterexample): for the application name `nfs-provisioner #` line 4
of the manifest is `  name: nfs-provisioner #-openebs-nfs-provisioner`; what
follows the blank and `#` is a comment, so the PodSecurityPolicy is read with
the name `nfs-provisioner`, the very name the `use` rule of the ClusterRole
lists. -/
theorem policy_named_as_rule_by_comment :
    (renderedText false "nfs-provisioner #" defaultStorageSize defaultOpenebsStorageClass).map
      (fun text => (lineAt text.data 2, lineAt text.data 4)) =
      some (some "kind: PodSecurityPolicy".data,
        some "  name: nfs-provisioner #-openebs-nfs-provisioner".data) ∧
    (renderedText false "nfs-provisioner #" defaultStorageSize defaultOpenebsStorageClass).map
      (fun text => (scalarAt text 4 "  name: ", flowAt text 47 "    resourceNames: ")) =
      some (some "nfs-provisioner".data, some ["nfs-provisioner".data]) := by
  constructor <;> decide!

/-- C16: for every application name of length `n`, ProvisionerStatefulName has
length `n + 24` and NFSRoleName has length `n + 39`, no derived name is
longer than NFSRoleName, and ProvisionerStatefulName, the field every `app:`
label of the template names, is at most 63 characters long exactly when
`n ≤ 39`; the same holds with lengths counted in UTF-8 bytes, as Go `len`
counts them. -/
theorem derived_name_lengths (fused : Bool) (app : String) (size : F64) (sc : String) :
    (Run fused (flagValues app size sc)).1.ProvisionerStatefulName.length = app.length + 24 ∧
    (Run fused (flagValues app size sc)).1.NFSRoleName.length = app.length + 39 ∧
    (∀ name ∈ derivedNames (Run fused (flagValues app size sc)).1,
      name.length ≤ (Run fused (flagValues app size sc)).1.NFSRoleName.length) ∧
    ((Run fused (flagValues app size sc)).1.ProvisionerStatefulName.length ≤ 63 ↔
      app.length ≤ 39) ∧
    (Run fused (flagValues app size sc)).1.ProvisionerStatefulName.utf8ByteSize =
      app.utf8ByteSize + 24 ∧
    (Run fused (flagValues app size sc)).1.NFSRoleName.utf8ByteSize = app.utf8ByteSize + 39 ∧
    ((Run fused (flagValues app size sc)).1.ProvisionerStatefulName.utf8ByteSize ≤ 63 ↔
      app.utf8ByteSize ≤ 39) ∧
    (templateSlots.filter (fun s => "app: ".data.isSuffixOf s.context)).map (fun s => s.field) =
      ["ProvisionerStatefulName", "ProvisionerStatefulName", "ProvisionerStatefulName",
       "ProvisionerStatefulName"] := by
  have h1 : (Run fused (flagValues app size sc)).1.ProvisionerStatefulName.length
      = app.length + 24 := by
    simp only [Run, deriveRecord, flagValues, String.length_append]
    rfl
  have h2 : (Run fused (flagValues app size sc)).1.NFSRoleName.length = app.length + 39 := by
    simp only [Run, deriveRecord, flagValues, String.length_append]
    rfl
  have b1 : (Run fused (flagValues app size sc)).1.ProvisionerStatefulName.utf8ByteSize
      = app.utf8ByteSize + 24 := by
    simp only [Run, deriveRecord, flagValues, utf8ByteSize_append]
    rfl
  have b2 : (Run fused (flagValues app size sc)).1.NFSRoleName.utf8ByteSize
      = app.utf8ByteSize + 39 := by
    simp only [Run, deriveRecord, flagValues, utf8ByteSize_append]
    rfl
  refine ⟨h1, h2, ?_, by rw [h1]; omega, b1, b2, by rw [b1]; omega, by decide!⟩
  intro name hname
  rw [h2]
  simp only [derivedNames, Run, deriveRecord, flagValues, List.mem_cons, List.mem_singleton,
    List.not_mem_nil, or_false] at hname
  rcases hname with h | h | h | h | h | h | h | h <;> rw [h] <;>
    simp only [String.length_append] <;>
    first
      | (have e1 : ("-" : String).length = 1 := rfl
         have e2 : defaultProvisioneStatefulName.length = 23 := rfl
         have e3 : defaultNFSClusterRoleName.length = 30 := rfl
         have e4 : defaultNFSClusterRoleBindingName.length = 27 := rfl
         have e5 : defaultNFSRoleName.length = 38 := rfl
         have e6 : defaultProvisionerName.length = 14 := rfl
         have e7 : defaultOpenebsPVCName.length = 10 := rfl
         have e8 : defaultNFSStorageClass.length = 11 := rfl
         have e9 : defaultNFSPVCName.length = 15 := rfl
         omega)

end Onfs
